import Mathlib

/-!
Shallow embedding of the timetable generation backend
(`services/timetable_service.py`, `routes/timetable_routes.py`, `models.py`).

Conventions:
* SQLAlchemy rows become Lean structures; opaque integer ids are `Nat`.
* The ambient `random` module state is modelled as an explicit stream of
  naturals (`Rng`); `random.shuffle` is CPython's Fisher-Yates loop, with the
  `j`-draw for bound `i+1` modelled as `stream pos % (i+1)`.
* Python `float` scores are modelled as exact rationals (`ℚ`); the score
  values produced by the program are multiples of `1/5`, on which two-decimal
  rounding is exact.
* Fallible dictionary lookups (`d[k]`, raising `KeyError`) become `Option`;
  a runtime crash (e.g. `TypeError` on `None["subject_id"]`) is propagated as
  `Option.none` / `Except.error`.
* Python truthiness of an optional integer (`if not teacher_id`) is false for
  both a missing value and the integer `0` (`pyFalsy`).
-/

namespace TimetableSpec

/-- Working days, in the `days_order` list order of the source
(`["Monday", ..., "Friday"]`). -/
inductive Day where
  | monday | tuesday | wednesday | thursday | friday
deriving DecidableEq, Repr

/-- Rank of a day name in alphabetical (string) order, used to model the SQL
`ORDER BY day_of_week` on the string column: Friday < Monday < Thursday <
Tuesday < Wednesday. -/
def Day.alphaRank : Day → Nat
  | .friday => 0
  | .monday => 1
  | .thursday => 2
  | .tuesday => 3
  | .wednesday => 4

/-- The `day_of_week` string stored for a day. -/
def Day.pyName : Day → String
  | .monday => "Monday"
  | .tuesday => "Tuesday"
  | .wednesday => "Wednesday"
  | .thursday => "Thursday"
  | .friday => "Friday"

/-- Item/block kind: `"T"` (theory, one slot) or `"L"` (lab, two slots). -/
inductive ItemType where
  | T | L
deriving DecidableEq, Repr

/-- Room type strings of `models.Room.room_type`. -/
inductive RoomType where
  | classroom | lab | seminarHall
deriving DecidableEq, Repr

/-- `models.ClassGroup` (table `classes`). -/
structure ClassGroup where
  id : Nat
  name : String
  student_strength : Nat
deriving DecidableEq, Repr

/-- `models.Subject`. -/
structure Subject where
  id : Nat
  name : String
  class_id : Nat
  lectures_per_week : Nat
  priority_morning : Bool
  is_lab : Bool
deriving DecidableEq, Repr

/-- `models.Teacher`. -/
structure Teacher where
  id : Nat
  name : String
  max_lectures_per_day : Nat
deriving DecidableEq, Repr

/-- `models.Room`. -/
structure Room where
  id : Nat
  name : String
  capacity : Nat
  room_type : RoomType
deriving DecidableEq, Repr

/-- `models.TeacherSubject`. -/
structure TeacherSubject where
  teacher_id : Nat
  subject_id : Nat
deriving DecidableEq, Repr

/-- `models.TimeSlot`. -/
structure TimeSlot where
  id : Nat
  day_of_week : Day
  slot_order : Nat
  is_break : Bool
deriving DecidableEq, Repr

/-- `models.TeacherAvailability`. -/
structure TeacherAvailability where
  teacher_id : Nat
  time_slot_id : Nat
  is_available : Bool
deriving DecidableEq, Repr

/-- `models.TimetableEntry` (table `timetable`). -/
structure Entry where
  version_id : Nat
  class_id : Nat
  subject_id : Nat
  teacher_id : Nat
  room_id : Nat
  time_slot_id : Nat
  is_locked : Bool
deriving DecidableEq, Repr

/-- `models.TimetableVersion`. -/
structure Version where
  id : Nat
  name : String
  score : ℚ
  is_active : Bool
deriving DecidableEq, Repr

/-- `models.ConflictLog`. -/
structure ConflictLogRow where
  version_id : Nat
  conflict_type : String
  message : String
deriving DecidableEq, Repr

/-- A violation record produced by `detect_conflicts`. -/
structure Conflict where
  ctype : String
  message : String
deriving DecidableEq, Repr

/-- The read-only problem instance: the entity tables the generator reads. -/
structure Instance where
  classes : List ClassGroup
  subjects : List Subject
  teachers : List Teacher
  rooms : List Room
  slots : List TimeSlot
  teacher_subjects : List TeacherSubject
  availability : List TeacherAvailability
deriving Repr

/-- The mutable store the generator writes to: versions, entries, conflict
logs (each `db.session.commit()` appends here). -/
structure DB where
  versions : List Version
  entries : List Entry
  logs : List ConflictLogRow
deriving DecidableEq, Repr

/-! ### Ambient RNG and `random.shuffle` -/

/-- State of the ambient `random` module: an infinite stream of naturals and
a position.  A draw below bound `n` reads `stream pos % n`. -/
structure Rng where
  stream : Nat → Nat
  pos : Nat

/-- Draw a value `< n` (for `n > 0`) and advance the stream. -/
def Rng.next (r : Rng) (n : Nat) : Nat × Rng :=
  (r.stream r.pos % n, ⟨r.stream, r.pos + 1⟩)

/-- Python truthiness test of an optional integer: `not x` is true when `x`
is `None` or `0`. -/
def pyFalsy (o : Option Nat) : Bool :=
  match o with
  | none => true
  | some n => n == 0

/-- Swap the elements at positions `i` and `j` (no-op when out of bounds),
the elementary step of CPython's `random.shuffle`. -/
def listSwap (l : List α) (i j : Nat) : List α :=
  match l.get? i, l.get? j with
  | some a, some b => (l.set i b).set j a
  | _, _ => l

/-- Fisher-Yates tail: runs swaps for positions `i, i-1, ..., 1`.
`random.shuffle(x)` is `for i in reversed(range(1, len(x))): j = draw(i+1);
swap x[i], x[j]`. -/
def fyAux : Nat → List α → Rng → List α × Rng
  | 0, l, rng => (l, rng)
  | k + 1, l, rng =>
      let (j, rng') := rng.next (k + 2)
      fyAux k (listSwap l (k + 1) j) rng'

/-- `random.shuffle` on a list, returning the shuffled list and the advanced
RNG state. -/
def pyShuffle (l : List α) (rng : Rng) : List α × Rng :=
  fyAux (l.length - 1) l rng

/-! ### Demand expander (`generate_timetable`, lines 109-125) -/

/-- One atomic placement item (`{"class_id": ..., "subject_id": ..., "type": ...}`). -/
structure Item where
  class_id : Nat
  subject_id : Nat
  typ : ItemType
deriving DecidableEq, Repr

/-- Items contributed by one class: the lab items (`lectures_per_week // 2`
each) followed by the theory items (`lectures_per_week` each), exactly as the
source builds `l_items` and `t_items` and extends `class_items` with
`l_items` then `t_items`. -/
def expandClass (subjects : List Subject) (c : ClassGroup) : List Item :=
  let csubs := subjects.filter (fun s => s.class_id == c.id)
  let lItems := csubs.flatMap (fun s =>
    if s.is_lab then
      List.replicate (s.lectures_per_week / 2) ⟨c.id, s.id, ItemType.L⟩
    else [])
  let tItems := csubs.flatMap (fun s =>
    if s.is_lab then []
    else List.replicate s.lectures_per_week ⟨c.id, s.id, ItemType.T⟩)
  lItems ++ tItems

/-- The full pre-shuffle item list (`class_items` before line 124). -/
def expandAll (classes : List ClassGroup) (subjects : List Subject) : List Item :=
  classes.flatMap (expandClass subjects)

/-- Embeds `class_items.sort(key=lambda x: x["type"], reverse=True)`:
Python's sort is stable, and on the two-valued key `"L" < "T"` a stable
descending sort is exactly the `"T"` items in original order followed by the
`"L"` items in original order. -/
def pySortTypeRev (l : List Item) : List Item :=
  l.filter (fun it => it.typ == ItemType.T) ++ l.filter (fun it => it.typ == ItemType.L)

/-- Lines 109-125: build `class_items`, `random.shuffle` it, then sort by
type descending. -/
def buildItems (classes : List ClassGroup) (subjects : List Subject) (rng : Rng) :
    List Item × Rng :=
  let (shuffled, rng') := pyShuffle (expandAll classes subjects) rng
  (pySortTypeRev shuffled, rng')

/-! ### Grid builder (`generate_timetable`, lines 127-163) -/

/-- A typed block of the search skeleton: a pre-reserved list of slot orders
on a `(class, day)`, holding an optional placed item (`block["item"]`). -/
structure PlacedItem where
  subject_id : Nat
  teacher_id : Nat
  room_id : Nat
deriving DecidableEq, Repr

/-- One grid block (`{"slots": ..., "type": ..., "item": None}` together with
the class id and day it is filed under). -/
structure Block where
  class_id : Nat
  day : Day
  slots : List Nat
  btyp : ItemType
  item : Option PlacedItem
deriving DecidableEq, Repr

/-- Heavy-day template: 2 lab blocks `(1,2)`, `(5,6)` and theory slots
`3, 8, 9`. -/
def heavyBlocks (c : Nat) (d : Day) : List Block :=
  [⟨c, d, [1, 2], ItemType.L, none⟩,
   ⟨c, d, [5, 6], ItemType.L, none⟩,
   ⟨c, d, [3], ItemType.T, none⟩,
   ⟨c, d, [8], ItemType.T, none⟩,
   ⟨c, d, [9], ItemType.T, none⟩]

/-- Light-day template: 1 lab block `(1,2)` and theory slots `3, 5, 6`. -/
def lightBlocks (c : Nat) (d : Day) : List Block :=
  [⟨c, d, [1, 2], ItemType.L, none⟩,
   ⟨c, d, [3], ItemType.T, none⟩,
   ⟨c, d, [5], ItemType.T, none⟩,
   ⟨c, d, [6], ItemType.T, none⟩]

/-- The `days_order` list of the source. -/
def daysOrder : List Day :=
  [Day.monday, Day.tuesday, Day.wednesday, Day.thursday, Day.friday]

/-- Grid of one class: shuffle the five days; the first three shuffled days
are heavy, the rest light.  The returned flat list is the class's
contribution to `empty_blocks` (days in shuffled order, blocks in template
order). -/
def buildClassGrid (cid : Nat) (rng : Rng) : List Block × Rng :=
  let (ds, rng') := pyShuffle daysOrder rng
  ((ds.enum.flatMap fun (i, d) =>
      if i < 3 then heavyBlocks cid d else lightBlocks cid d), rng')

/-- Grids of all classes in class order, flattened in the iteration order of
the `empty_blocks` construction. -/
def buildAllGrids (classes : List ClassGroup) (rng : Rng) : List Block × Rng :=
  match classes with
  | [] => ([], rng)
  | c :: rest =>
      let (bs, rng1) := buildClassGrid c.id rng
      let (more, rng2) := buildAllGrids rest rng1
      (bs ++ more, rng2)

/-! ### Fixed lookup context of one generation run -/

/-- Stable sort (insertion after equals, i.e. the stable ascending order of
Python's / SQL's sort) by a boolean `le`. -/
def stableInsert (le : α → α → Bool) (x : α) : List α → List α
  | [] => [x]
  | y :: ys => if le y x then y :: stableInsert le x ys else x :: y :: ys

/-- Stable sort by `le` (assumed total): repeatedly insert, left to right. -/
def stableSortBy (le : α → α → Bool) (l : List α) : List α :=
  l.foldl (fun acc x => stableInsert le x acc) []

/-- The slot query of line 96: non-break slots ordered by the string column
`day_of_week` (alphabetical day rank) then `slot_order`. -/
def sortedSlots (slots : List TimeSlot) : List TimeSlot :=
  stableSortBy
    (fun a b =>
      a.day_of_week.alphaRank < b.day_of_week.alphaRank ||
        (a.day_of_week.alphaRank == b.day_of_week.alphaRank &&
          a.slot_order ≤ b.slot_order))
    (slots.filter (fun s => !s.is_break))

/-- Lookup in the `slot_map` dict `{(day_of_week, slot_order): id}` built from
the sorted non-break slots; a later row overwrites an earlier one with the
same key, hence the reversed search. -/
def slotMapLookup (slots : List TimeSlot) (d : Day) (o : Nat) : Option Nat :=
  ((sortedSlots slots).reverse.find? fun s =>
      s.day_of_week == d && s.slot_order == o).map (·.id)

/-- Lookup in the dict `{ts.subject_id: ts.teacher_id}` of line 100 (last
mapping for a subject wins). -/
def tMapLookup (tss : List TeacherSubject) (sid : Nat) : Option Nat :=
  (tss.reverse.find? fun ts => ts.subject_id == sid).map (·.teacher_id)

/-- The room pools of lines 103-104. -/
def classroomsOf (rooms : List Room) : List Room :=
  rooms.filter (fun r => r.room_type == RoomType.classroom)

/-- Lab-room pool (line 104). -/
def labRoomsOf (rooms : List Room) : List Room :=
  rooms.filter (fun r => r.room_type == RoomType.lab)

/-! ### Search core (`place_item`, lines 168-232)

The recursive Python function mutates the shared grid and the two busy sets
and undoes its changes on failure; functionally, a failed branch simply
resumes from the state it was called with, except that the ambient RNG has
advanced.  The grid is the flat `empty_blocks` list (the per-class-day views
of `class_grids` are filters of it); a chosen block is identified by its
index in that list. -/

/-- Mutable search state: the flat block list and the two busy sets
(`teacher_busy`, `room_busy`, as lists with membership semantics). -/
structure SearchSt where
  blocks : List Block
  tbusy : List (Nat × Nat)
  rbusy : List (Nat × Nat)
deriving Repr

/-- A block used when an index is out of range; indices produced by
`validIdxs` are always in range. -/
def junkBlock : Block := ⟨0, Day.monday, [], ItemType.T, none⟩

/-- Indices (into `blocks`) of the list comprehension
`[b for b in empty_blocks if b class/type matches and item is None]`,
starting the count at `i`. -/
def validIdxsFrom (i : Nat) (item : Item) : List Block → List Nat
  | [] => []
  | b :: bs =>
      if b.class_id == item.class_id && b.btyp == item.typ && b.item.isNone then
        i :: validIdxsFrom (i + 1) item bs
      else validIdxsFrom (i + 1) item bs

/-- Candidate block indices for an item. -/
def validIdxs (item : Item) (blocks : List Block) : List Nat :=
  validIdxsFrom 0 item blocks

/-- The `daily_subs` list: subject ids already placed for this class on this
day (read from the current grid). -/
def dailySubs (blocks : List Block) (c : Nat) (d : Day) : List Nat :=
  (blocks.filter fun b => b.class_id == c && b.day == d).filterMap
    (fun b => b.item.map (·.subject_id))

/-- Teacher check of lines 188-195: a slot order with a falsy slot id, or a
slot already claimed by this teacher, makes the block conflict. -/
def teacherConflict (slots : List TimeSlot) (tbusy : List (Nat × Nat))
    (tid : Nat) (d : Day) (orders : List Nat) : Bool :=
  orders.any fun o =>
    pyFalsy (slotMapLookup slots d o) ||
      tbusy.contains (tid, (slotMapLookup slots d o).getD 0)

/-- Room check of lines 202-207 for one candidate room. -/
def roomFree (slots : List TimeSlot) (rbusy : List (Nat × Nat))
    (rid : Nat) (d : Day) (orders : List Nat) : Bool :=
  orders.all fun o =>
    !pyFalsy (slotMapLookup slots d o) &&
      !rbusy.contains (rid, (slotMapLookup slots d o).getD 0)

/-- Room selection of lines 197-210: first room of the shuffled pool whose
slot list is free of `room_busy`. -/
def pickRoom (slots : List TimeSlot) (rbusy : List (Nat × Nat))
    (d : Day) (orders : List Nat) (pool : List Room) : Option Nat :=
  (pool.find? fun r => roomFree slots rbusy r.id d orders).map (·.id)

/-- The block-candidate loop of `place_item` (lines 180-231).  `recur` is the
recursive call `place_item(item_idx + 1)` on the remaining items.  On failure
the loop resumes from the state it entered with (the code's undo), with the
RNG advanced. -/
def tryBlocks (slots : List TimeSlot) (classrooms labRooms : List Room)
    (recur : SearchSt → Rng → Option SearchSt × Rng)
    (item : Item) (tid : Nat) :
    List Nat → SearchSt → Rng → Option SearchSt × Rng
  | [], _, rng => (none, rng)
  | bi :: more, st, rng =>
      let b := st.blocks.getD bi junkBlock
      if (dailySubs st.blocks item.class_id b.day).contains item.subject_id then
        tryBlocks slots classrooms labRooms recur item tid more st rng
      else if teacherConflict slots st.tbusy tid b.day b.slots then
        tryBlocks slots classrooms labRooms recur item tid more st rng
      else
        let pool := if item.typ == ItemType.T then classrooms else labRooms
        let sh := pyShuffle pool rng
        let roomRes := pickRoom slots st.rbusy b.day b.slots sh.1
        if pyFalsy roomRes then
          tryBlocks slots classrooms labRooms recur item tid more st sh.2
        else
          let rid := roomRes.getD 0
          let filled : Block := { b with item := some ⟨item.subject_id, tid, rid⟩ }
          let st1 : SearchSt :=
            { blocks := st.blocks.set bi filled
              tbusy := b.slots.foldl
                (fun tb o => (tid, (slotMapLookup slots b.day o).getD 0) :: tb) st.tbusy
              rbusy := b.slots.foldl
                (fun rb o => (rid, (slotMapLookup slots b.day o).getD 0) :: rb) st.rbusy }
          match recur st1 sh.2 with
          | (some st', rng2) => (some st', rng2)
          | (none, rng2) =>
              tryBlocks slots classrooms labRooms recur item tid more st rng2

/-- `place_item` with explicit fuel (one unit per recursion depth; the
top-level call supplies `items.length + 1`, which never runs out).  Returns
the final state on success. -/
def place (slots : List TimeSlot) (tss : List TeacherSubject)
    (classrooms labRooms : List Room) :
    Nat → List Item → SearchSt → Rng → Option SearchSt × Rng
  | 0, _, _, rng => (none, rng)
  | _ + 1, [], st, rng => (some st, rng)
  | fuel + 1, item :: rest, st, rng =>
      let tidO := tMapLookup tss item.subject_id
      if pyFalsy tidO then (none, rng)
      else
        let tid := tidO.getD 0
        let sh := pyShuffle (validIdxs item st.blocks) rng
        tryBlocks slots classrooms labRooms
          (place slots tss classrooms labRooms fuel rest) item tid sh.1 st sh.2

/-- The top-level `place_item(0)` call of line 234. -/
def placeItems (slots : List TimeSlot) (tss : List TeacherSubject)
    (classrooms labRooms : List Room)
    (items : List Item) (st : SearchSt) (rng : Rng) : Option SearchSt × Rng :=
  place slots tss classrooms labRooms (items.length + 1) items st rng

/-! ### Persistence of a successful candidate (lines 240-256) -/

/-- Entries written for one block's slot orders, one `TimetableEntry` per
slot.  The code indexes `slot_map[(day, s_idx)]` (a `KeyError` when missing)
and then `item["subject_id"]` (a `TypeError` when the block's item is
`None`); both crashes are modelled as `none`. -/
def persistSlots (slots : List TimeSlot) (vid : Nat) (b : Block) :
    List Nat → Option (List Entry)
  | [] => some []
  | o :: os => do
      let ts ← slotMapLookup slots b.day o
      let pi ← b.item
      let rest ← persistSlots slots vid b os
      pure (⟨vid, b.class_id, pi.subject_id, pi.teacher_id, pi.room_id, ts, false⟩ :: rest)

/-- Entries written for one block. -/
def persistBlock (slots : List TimeSlot) (vid : Nat) (b : Block) :
    Option (List Entry) :=
  persistSlots slots vid b b.slots

/-- The persistence loop over `empty_blocks`. -/
def persistBlocks (slots : List TimeSlot) (vid : Nat) :
    List Block → Option (List Entry)
  | [] => some []
  | b :: bs => do
      let es ← persistBlock slots vid b
      let more ← persistBlocks slots vid bs
      pure (es ++ more)

/-! ### One candidate (`generate_timetable` loop body, lines 108-266) -/

/-- Outcome of one loop iteration: the search failed (a `generation_failed`
version is committed), the search succeeded and its entries were persisted
(a score-100 version, the entries and a `Success` log are committed), or the
iteration crashed in the persistence loop (nothing is committed and the
exception propagates). -/
inductive CandOut where
  | crash : CandOut
  | failed : CandOut
  | placed : List Entry → CandOut
deriving Repr

/-- One iteration of the version loop: expand and order the demand, build the
grids, run the search, persist. -/
def genOne (inst : Instance) (vid : Nat) (rng : Rng) : CandOut × Rng :=
  let bi := buildItems inst.classes inst.subjects rng
  let gr := buildAllGrids inst.classes bi.2
  let pr := placeItems inst.slots inst.teacher_subjects
    (classroomsOf inst.rooms) (labRoomsOf inst.rooms) bi.1 ⟨gr.1, [], []⟩ gr.2
  match pr.1 with
  | none => (CandOut.failed, pr.2)
  | some st =>
      match persistBlocks inst.slots vid st.blocks with
      | none => (CandOut.crash, pr.2)
      | some es => (CandOut.placed es, pr.2)

/-- Append a committed candidate to the store: the version row, its entries
and its conflict-log row. -/
def commitCand (db : DB) (v : Version) (es : List Entry) (log : ConflictLogRow) : DB :=
  { versions := db.versions ++ [v]
    entries := db.entries ++ es
    logs := db.logs ++ [log] }

/-- The version loop (`for index in range(num_versions)`), also tracking the
positions (indices into `db.versions`) of the versions generated by this run,
which is what `generated_versions` holds references to.  A crash aborts the
whole run, keeping what previous iterations committed. -/
def genLoop (inst : Instance) :
    Nat → Nat → DB → List Nat → Rng → Except DB (DB × List Nat × Rng)
  | 0, _, db, gps, rng => Except.ok (db, gps, rng)
  | n + 1, idx, db, gps, rng =>
      let vid := db.versions.length + 1
      let name := "Auto Formatted " ++ toString (idx + 1)
      match genOne inst vid rng with
      | (CandOut.crash, _) => Except.error db
      | (CandOut.failed, rng') =>
          genLoop inst n (idx + 1)
            (commitCand db ⟨vid, name, 0, false⟩ []
              ⟨vid, "generation_failed", "Constraints too strict to find contiguous solution."⟩)
            (gps ++ [db.versions.length]) rng'
      | (CandOut.placed es, rng') =>
          genLoop inst n (idx + 1)
            (commitCand db ⟨vid, name, 100, false⟩ es
              ⟨vid, "Success", "Contiguous Generation Successful"⟩)
            (gps ++ [db.versions.length]) rng'

/-- Set every version's `is_active` to `false` except the one at position
`k`, which becomes active — the net effect of
`TimetableVersion.query.update({"is_active": False})` followed by setting the
flag on one fetched row. -/
def setActiveAt : List Version → Nat → List Version
  | [], _ => []
  | v :: vs, 0 => { v with is_active := true } :: vs.map (fun w => { w with is_active := false })
  | v :: vs, k + 1 => { v with is_active := false } :: setActiveAt vs k

/-- Position of the best generated version: Python's `max(generated_versions,
key=lambda v: v.score)` returns the first row of maximal score. -/
def bestPos (versions : List Version) : List Nat → Nat → Nat
  | [], best => best
  | p :: ps, best =>
      if (versions.getD p ⟨0, "", 0, false⟩).score >
          (versions.getD best ⟨0, "", 0, false⟩).score then
        bestPos versions ps p
      else bestPos versions ps best

/-- First-maximum fold over the generated positions. -/
def selectBest (versions : List Version) (gps : List Nat) : Nat :=
  match gps with
  | [] => 0
  | p :: ps => bestPos versions ps p

/-- `generate_timetable(created_by, num_versions, max_retries)`.  The
`max_retries` parameter is accepted and never read, exactly as in the source.
A crash in the persistence loop yields `Except.error` carrying the store with
only the previously committed candidates. -/
def generateTimetable (inst : Instance) (numVersions maxRetries : Nat)
    (db : DB) (rng : Rng) : Except DB DB :=
  let _ := maxRetries
  match genLoop inst numVersions 0 db [] rng with
  | Except.error db' => Except.error db'
  | Except.ok (db', gps, _) =>
      match gps with
      | [] => Except.ok db'
      | _ :: _ =>
          Except.ok { db' with versions := setActiveAt db'.versions (selectBest db'.versions gps) }

/-! ### The `activate` route (`timetable_routes.py`, lines 137-144) -/

/-- Position of the first version with a given id (`query.get`). -/
def findVersionPos : List Version → Nat → Option Nat
  | [], _ => none
  | v :: vs, vid =>
      if v.id == vid then some 0
      else (findVersionPos vs vid).map (· + 1)

/-- `POST /versions/<id>/activate`: clear every active flag, set the flag on
the fetched row, commit.  When the id is unknown the route raises a 404
before the commit, so the store is unchanged (`none`). -/
def activateVersion (db : DB) (vid : Nat) : Option DB :=
  match findVersionPos db.versions vid with
  | none => none
  | some k => some { db with versions := setActiveAt db.versions k }

/-! ### Conflict detector (`detect_conflicts`, lines 26-73) -/

/-- Lookup in a dict comprehension `{row.id: row for row in table}` (a later
row with the same id overwrites an earlier one). -/
def dictById (rows : List α) (key : α → Nat) (i : Nat) : Option α :=
  rows.reverse.find? (fun r => key r == i)

/-- Read a `defaultdict(int)` counter. -/
def countGet (m : List ((Nat × Day) × Nat)) (k : Nat × Day) : Nat :=
  ((m.find? (fun p => p.1 == k)).map (·.2)).getD 0

/-- Write a `defaultdict(int)` counter. -/
def countSet : List ((Nat × Day) × Nat) → (Nat × Day) → Nat → List ((Nat × Day) × Nat)
  | [], k, n => [(k, n)]
  | p :: ps, k, n => if p.1 == k then (k, n) :: ps else p :: countSet ps k n

/-- Loop state of `detect_conflicts`. -/
structure DCState where
  conflicts : List Conflict
  seen_teacher : List (Nat × Nat)
  seen_room : List (Nat × Nat)
  seen_class : List (Nat × Nat)
  daily_subject : List (Nat × Day × Nat)
  teacher_daily_count : List ((Nat × Day) × Nat)

/-- The conflict checks run for one entry (lines 40-71).  Any failed dict
lookup is the Python `KeyError` and aborts the whole detection. -/
def dcStep (inst : Instance) (st : DCState) (e : Entry) : Option DCState := do
  let slot ← dictById inst.slots (·.id) e.time_slot_id
  let keyTeacher := (e.teacher_id, e.time_slot_id)
  let keyRoom := (e.room_id, e.time_slot_id)
  let keyClass := (e.class_id, e.time_slot_id)
  let dayKey := (e.class_id, slot.day_of_week, e.subject_id)
  let teacherDay := (e.teacher_id, slot.day_of_week)
  let c1 := if st.seen_teacher.contains keyTeacher then
      [Conflict.mk "teacher_clash" ("Teacher clash at slot " ++ toString e.time_slot_id)]
    else []
  let c2 := if st.seen_room.contains keyRoom then
      [Conflict.mk "room_clash" ("Room clash at slot " ++ toString e.time_slot_id)]
    else []
  let c3 := if st.seen_class.contains keyClass then
      [Conflict.mk "class_clash" ("Class clash at slot " ++ toString e.time_slot_id)]
    else []
  let c4 := if st.daily_subject.contains dayKey then
      [Conflict.mk "subject_repeat" ("Subject repetition for class " ++ toString e.class_id)]
    else []
  let room ← dictById inst.rooms (·.id) e.room_id
  let cls ← dictById inst.classes (·.id) e.class_id
  let c5 := if room.capacity < cls.student_strength then
      [Conflict.mk "room_capacity_mismatch"
        ("Room " ++ toString e.room_id ++ " capacity is less than class " ++
          toString e.class_id ++ " strength")]
    else []
  let counts := countSet st.teacher_daily_count teacherDay
    (countGet st.teacher_daily_count teacherDay + 1)
  let teacher ← dictById inst.teachers (·.id) e.teacher_id
  let c6 := if teacher.max_lectures_per_day < countGet counts teacherDay then
      [Conflict.mk "teacher_overload"
        ("Teacher " ++ toString e.teacher_id ++ " overloaded on " ++ teacherDay.2.pyName)]
    else []
  pure
    { conflicts := st.conflicts ++ c1 ++ c2 ++ c3 ++ c4 ++ c5 ++ c6
      seen_teacher := keyTeacher :: st.seen_teacher
      seen_room := keyRoom :: st.seen_room
      seen_class := keyClass :: st.seen_class
      daily_subject := dayKey :: st.daily_subject
      teacher_daily_count := counts }

/-- Fold of `dcStep` over the entries. -/
def dcLoop (inst : Instance) : List Entry → DCState → Option DCState
  | [], st => some st
  | e :: es, st => do
      let st' ← dcStep inst st e
      dcLoop inst es st'

/-- `detect_conflicts(version_id)`: run the checks over the version's
entries. -/
def detectConflicts (inst : Instance) (db : DB) (vid : Nat) : Option (List Conflict) :=
  (dcLoop inst (db.entries.filter (fun e => e.version_id == vid))
      ⟨[], [], [], [], [], []⟩).map (·.conflicts)

/-! ### Scorer (`_score_schedule`, lines 76-89) -/

/-- Python's banker's rounding of a rational to the nearest integer. -/
def roundHalfEven (q : ℚ) : ℤ :=
  let f := ⌊q⌋
  let r := q - f
  if r < 1 / 2 then f
  else if 1 / 2 < r then f + 1
  else if f % 2 = 0 then f else f + 1

/-- `round(x, 2)` on the exact rational model of the score. -/
def pyRound2 (q : ℚ) : ℚ := (roundHalfEven (q * 100) : ℚ) / 100

/-- Morning-priority penalty count: entries whose subject has
`priority_morning` and whose slot has `slot_order > 2`. -/
def morningPenaltyCount (inst : Instance) (entries : List Entry) : Option Nat := do
  let flags : List Bool ← entries.mapM fun e => do
    let sub ← dictById inst.subjects (·.id) e.subject_id
    let slot ← dictById inst.slots (·.id) e.time_slot_id
    pure (sub.priority_morning && decide (2 < slot.slot_order))
  pure (flags.count true)

/-- `_score_schedule(version_id)`: start at 100, subtract 0.4 per
morning-priority entry after slot 2, subtract 10 per detected conflict,
clamp below at 0 and round to two decimals. -/
def scoreSchedule (inst : Instance) (db : DB) (vid : Nat) : Option ℚ := do
  let entries := db.entries.filter (fun e => e.version_id == vid)
  let m ← morningPenaltyCount inst entries
  let conflicts ← detectConflicts inst db vid
  let score : ℚ := 100 - (2 / 5) * m - 10 * conflicts.length
  pure (max 0 (pyRound2 score))

/-! ### The `generate` route (`timetable_routes.py`, lines 100-127) -/

/-- The pre-search issue scan of lines 108-116. -/
def generationIssues (inst : Instance) : List String :=
  inst.classes.flatMap fun c =>
    let clsSubjects := inst.subjects.filter (fun s => s.class_id == c.id)
    if clsSubjects.isEmpty then
      ["Class '" ++ c.name ++ "' has no subjects configured."]
    else
      clsSubjects.filterMap fun s =>
        if (inst.teacher_subjects.map (·.subject_id)).contains s.id then none
        else some ("Subject '" ++ s.name ++ "' in class '" ++ c.name ++
          "' has no teacher mapping.")

/-- Observable outcome of `POST /generate`: a 400 with the issue list, a 400
because no versions were produced, a 201 with the version payload, or an
unhandled exception (500) from a crash inside `generate_timetable`. -/
inductive EpOut where
  | blocked : List String → EpOut
  | emptyFailure : EpOut
  | created : List (Nat × ℚ × Bool) → EpOut
  | serverError : EpOut
deriving DecidableEq, Repr

/-- `POST /generate`: run the pre-check; when clean, call
`generate_timetable`.  Returns the response and the resulting store. -/
def generateEndpoint (inst : Instance) (db : DB) (numVersions maxRetries : Nat)
    (rng : Rng) : EpOut × DB :=
  let issues := generationIssues inst
  if issues.isEmpty then
    match generateTimetable inst numVersions maxRetries db rng with
    | Except.error db' => (EpOut.serverError, db')
    | Except.ok db' =>
        let versions := db'.versions.drop db.versions.length
        if versions.isEmpty then (EpOut.emptyFailure, db')
        else (EpOut.created (versions.map fun v => (v.id, v.score, v.is_active)), db')
  else (EpOut.blocked issues, db)

/-! ### Concrete test instances -/

/-- A constant RNG stream: one possible state of the ambient, never-seeded
`random` module. -/
def rngConst (k : Nat) : Rng := ⟨fun _ => k, 0⟩

/-- The non-break slot orders of the day template. -/
def stdOrders : List Nat := [1, 2, 3, 5, 6, 8, 9]

/-- A full Monday-Friday grid of non-break slots, ids 1..35 (Monday gets
ids 1-7 for orders 1,2,3,5,6,8,9, and so on). -/
def mkSlots : List TimeSlot :=
  daysOrder.enum.flatMap fun p =>
    stdOrders.enum.map fun q => ⟨p.1 * 7 + q.1 + 1, p.2, q.2, false⟩

/-- Instance with one class and a single one-lecture theory subject: the
search succeeds immediately but 22 of the 23 grid blocks stay empty. -/
def instSmall : Instance :=
  { classes := [⟨1, "FY-A", 30⟩]
    subjects := [⟨1, "Maths", 1, 1, false, false⟩]
    teachers := [⟨1, "Asha", 6⟩]
    rooms := [⟨1, "R101", 40, RoomType.classroom⟩]
    slots := mkSlots
    teacher_subjects := [⟨1, 1⟩]
    availability := [] }

/-- Instance whose demand exactly fills one class's grid: three theory
subjects of 5 lectures (one of them morning-priority) and two lab subjects
of 8 lectures; a single teacher for everything; an undersized classroom
(capacity 10 for strength 30); the teacher marked unavailable on Monday
slot 1. -/
def instRun : Instance :=
  { classes := [⟨1, "FY-A", 30⟩]
    subjects :=
      [⟨1, "Maths", 1, 5, true, false⟩,
       ⟨2, "Physics", 1, 5, false, false⟩,
       ⟨3, "Chemistry", 1, 5, false, false⟩,
       ⟨4, "PhysicsLab", 1, 8, false, true⟩,
       ⟨5, "ChemLab", 1, 8, false, true⟩]
    teachers := [⟨1, "Asha", 6⟩]
    rooms := [⟨1, "R101", 10, RoomType.classroom⟩, ⟨2, "L201", 40, RoomType.lab⟩]
    slots := mkSlots
    teacher_subjects := [⟨1, 1⟩, ⟨1, 2⟩, ⟨1, 3⟩, ⟨1, 4⟩, ⟨1, 5⟩]
    availability := [⟨1, 1, false⟩] }

/-- Instance that passes the endpoint pre-check (the class has a subject and
the subject has a teacher) although the lab subject has an odd
`lectures_per_week`; with no slots and no rooms the search fails at once. -/
def instOddLab : Instance :=
  { classes := [⟨1, "FY-A", 30⟩]
    subjects := [⟨1, "BioLab", 1, 3, false, true⟩]
    teachers := [⟨1, "Asha", 6⟩]
    rooms := []
    slots := []
    teacher_subjects := [⟨1, 1⟩]
    availability := [] }

/-- The empty store. -/
def emptyDB : DB := ⟨[], [], []⟩

/-! ### Toolbox: shuffles preserve counts and membership -/

theorem getq_set_of_ne {l : List α} {i j : Nat} {a : α} (h : i ≠ j) :
    (l.set i a).get? j = l.get? j := by
  induction l generalizing i j with
  | nil => simp [List.set]
  | cons x xs ih =>
      cases i with
      | zero => cases j with
          | zero => exact absurd rfl h
          | succ j => simp [List.set]
      | succ i => cases j with
          | zero => simp [List.set]
          | succ j =>
              simp only [List.set, List.get?]
              exact ih (fun hh => h (by simp [hh]))

theorem getq_set_self {l : List α} {i : Nat} {a : α} (h : i < l.length) :
    (l.set i a).get? i = some a := by
  induction l generalizing i with
  | nil => simp at h
  | cons x xs ih =>
      cases i with
      | zero => simp [List.set]
      | succ i =>
          simp only [List.set, List.get?]
          exact ih (by simpa using h)

theorem countP_set_eq {p : α → Bool} {l : List α} {i : Nat} {x a : α}
    (h : l.get? i = some x) :
    (l.set i a).countP p + (if p x then 1 else 0) =
      l.countP p + (if p a then 1 else 0) := by
  induction l generalizing i with
  | nil => simp at h
  | cons y ys ih =>
      cases i with
      | zero =>
          simp only [List.get?] at h
          cases h
          simp only [List.set, List.countP_cons]
          by_cases hx : p x <;> by_cases ha : p a <;> simp [hx, ha] <;> omega
      | succ i =>
          simp only [List.get?] at h
          simp only [List.set, List.countP_cons]
          have := ih (i := i) h
          by_cases hy : p y <;> simp [hy] <;> omega

theorem countP_listSwap (p : α → Bool) (l : List α) (i j : Nat) :
    (listSwap l i j).countP p = l.countP p := by
  unfold listSwap
  cases hi : l.get? i with
  | none => rfl
  | some a =>
      cases hj : l.get? j with
      | none => rfl
      | some b =>
          simp only
          have hb : (l.set i b).get? j = some b := by
            by_cases hij : i = j
            · subst hij
              exact getq_set_self (by exact (List.get?_eq_some.mp hi).1)
            · rw [getq_set_of_ne hij]; exact hj
          have h1 := countP_set_eq (p := p) (a := b) hi
          have h2 := countP_set_eq (p := p) (a := a) hb
          omega

theorem mem_listSwap {x : α} {l : List α} {i j : Nat}
    (h : x ∈ listSwap l i j) : x ∈ l := by
  unfold listSwap at h
  cases hi : l.get? i with
  | none => rw [hi] at h; cases hj : l.get? j <;> rw [hj] at h <;> exact h
  | some a =>
      rw [hi] at h
      cases hj : l.get? j with
      | none => rw [hj] at h; exact h
      | some b =>
          rw [hj] at h
          simp only at h
          rcases List.mem_or_eq_of_mem_set h with h' | h'
          · rcases List.mem_or_eq_of_mem_set h' with h'' | h''
            · exact h''
            · subst h''; exact List.get?_mem hj
          · subst h'; exact List.get?_mem hi

theorem countP_fyAux (p : α → Bool) :
    ∀ (k : Nat) (l : List α) (rng : Rng), (fyAux k l rng).1.countP p = l.countP p := by
  intro k
  induction k with
  | zero => intro l rng; rfl
  | succ n ih =>
      intro l rng
      simp only [fyAux]
      rw [ih, countP_listSwap]

theorem mem_fyAux {x : α} :
    ∀ (k : Nat) (l : List α) (rng : Rng), x ∈ (fyAux k l rng).1 → x ∈ l := by
  intro k
  induction k with
  | zero => intro l rng h; exact h
  | succ n ih =>
      intro l rng h
      simp only [fyAux] at h
      exact mem_listSwap (ih _ _ h)

theorem countP_pyShuffle (p : α → Bool) (l : List α) (rng : Rng) :
    (pyShuffle l rng).1.countP p = l.countP p :=
  countP_fyAux p _ l rng

theorem mem_pyShuffle {x : α} {l : List α} {rng : Rng}
    (h : x ∈ (pyShuffle l rng).1) : x ∈ l :=
  mem_fyAux _ l rng h

theorem mem_stableInsert {x y : α} {le : α → α → Bool} :
    ∀ {l : List α}, y ∈ stableInsert le x l → y = x ∨ y ∈ l := by
  intro l
  induction l with
  | nil =>
      intro h
      simp only [stableInsert, List.mem_singleton] at h
      exact Or.inl h
  | cons z zs ih =>
      intro h
      simp only [stableInsert] at h
      by_cases hle : le z x = true
      · rw [if_pos hle] at h
        rcases List.mem_cons.mp h with h | h
        · exact Or.inr (List.mem_cons.mpr (Or.inl h))
        · rcases ih h with h' | h'
          · exact Or.inl h'
          · exact Or.inr (List.mem_cons.mpr (Or.inr h'))
      · rw [if_neg hle] at h
        rcases List.mem_cons.mp h with h | h
        · exact Or.inl h
        · exact Or.inr h

theorem mem_foldl_stableInsert {y : α} {le : α → α → Bool} :
    ∀ (l acc : List α), y ∈ l.foldl (fun a x => stableInsert le x a) acc →
      y ∈ acc ∨ y ∈ l := by
  intro l
  induction l with
  | nil => intro acc h; exact Or.inl h
  | cons z zs ih =>
      intro acc h
      simp only [List.foldl_cons] at h
      rcases ih _ h with h' | h'
      · rcases mem_stableInsert h' with h3 | h3
        · exact Or.inr (List.mem_cons.mpr (Or.inl h3))
        · exact Or.inl h3
      · exact Or.inr (List.mem_cons.mpr (Or.inr h'))

theorem mem_stableSortBy {y : α} {le : α → α → Bool} {l : List α}
    (h : y ∈ stableSortBy le l) : y ∈ l := by
  rcases mem_foldl_stableInsert l [] h with h' | h'
  · simp at h'
  · exact h'

/-! ### C5: order of the expanded item list -/

/-- Default item used with `List.getD`. -/
def junkItem : Item := ⟨0, 0, ItemType.T⟩

/-- Elements of the theory part of the sorted item list have type `T`. -/
theorem typ_of_mem_filterT {it : Item} {l : List Item}
    (h : it ∈ l.filter (fun x => x.typ == ItemType.T)) : it.typ = ItemType.T := by
  have := (List.mem_filter.mp h).2
  simpa using this

/-- Elements of the lab part of the sorted item list have type `L`. -/
theorem typ_of_mem_filterL {it : Item} {l : List Item}
    (h : it ∈ l.filter (fun x => x.typ == ItemType.L)) : it.typ = ItemType.L := by
  have := (List.mem_filter.mp h).2
  simpa using this

/-- C5, amended: in the final item list built by lines 109-125, every theory
item precedes every lab item (the `reverse=True` sort puts the `"T"` items
first): for `i < j` it never happens that position `i` holds an `L` item and
position `j` a `T` item. -/
theorem c5_theory_first (classes : List ClassGroup) (subjects : List Subject)
    (rng : Rng) (i j : Nat) (hij : i < j)
    (hj : j < (buildItems classes subjects rng).1.length) :
    ¬(((buildItems classes subjects rng).1.getD i junkItem).typ = ItemType.L ∧
      ((buildItems classes subjects rng).1.getD j junkItem).typ = ItemType.T) := by
  rintro ⟨hL, hT⟩
  have hout : (buildItems classes subjects rng).1 =
      (pyShuffle (expandAll classes subjects) rng).1.filter (fun x => x.typ == ItemType.T) ++
        (pyShuffle (expandAll classes subjects) rng).1.filter (fun x => x.typ == ItemType.L) := rfl
  set sh := (pyShuffle (expandAll classes subjects) rng).1 with hsh
  set A := sh.filter (fun x => x.typ == ItemType.T) with hA
  set B := sh.filter (fun x => x.typ == ItemType.L) with hB
  rw [hout] at hL hT hj
  by_cases hjA : j < A.length
  · have hiA : i < A.length := lt_trans hij hjA
    have hgi : (A ++ B).getD i junkItem ∈ A := by
      rw [List.getD_eq_getElem _ _ (by simp; omega),
        List.getElem_append_left hiA]
      exact List.getElem_mem _
    have := typ_of_mem_filterT hgi
    rw [hL] at this
    exact ItemType.noConfusion this
  · have hgj : (A ++ B).getD j junkItem ∈ B := by
      have hjlen : j < (A ++ B).length := hj
      rw [List.getD_eq_getElem _ _ hjlen]
      rw [List.getElem_append_right (Nat.le_of_not_lt hjA)]
      exact List.getElem_mem _
    have := typ_of_mem_filterL hgj
    rw [hT] at this
    exact ItemType.noConfusion this

/-- The item list of a tiny two-subject instance (one theory lecture, one
lab pair), as ordered by the demand expander. -/
def demoItems : List Item :=
  (buildItems [⟨1, "FY-A", 30⟩]
    [⟨1, "Maths", 1, 1, false, false⟩, ⟨2, "BioLab", 1, 2, false, true⟩]
    (rngConst 0)).1

/-- C5, counterexample: on the two-subject instance the final item list is
`[theory, lab]` — position 0 (a `T` item) precedes position 1 (an `L` item),
so it is not the case that every `L` item precedes every `T` item. -/
theorem c5_counterexample :
    demoItems.length = 2 ∧
      (demoItems.getD 0 junkItem).typ = ItemType.T ∧
      (demoItems.getD 1 junkItem).typ = ItemType.L := by
  decide

/-- C5, witness: the amended ordering theorem applied to the concrete
two-subject item list at positions 0 < 1. -/
theorem c5_witness :
    ¬((demoItems.getD 0 junkItem).typ = ItemType.L ∧
      (demoItems.getD 1 junkItem).typ = ItemType.T) :=
  c5_theory_first [⟨1, "FY-A", 30⟩]
    [⟨1, "Maths", 1, 1, false, false⟩, ⟨2, "BioLab", 1, 2, false, true⟩]
    (rngConst 0) 0 1 (by decide) (by decide)

/-! ### Concrete generator runs -/

/-- Store produced by a full generator run on `instRun` from the all-zero
RNG state. -/
def db1 : DB :=
  match generateTimetable instRun 1 80 emptyDB (rngConst 0) with
  | Except.ok db => db
  | Except.error db => db

/-- Store produced by the same call from the all-one RNG state. -/
def db2 : DB :=
  match generateTimetable instRun 1 80 emptyDB (rngConst 1) with
  | Except.ok db => db
  | Except.error db => db

/-- The per-candidate output of the first (and only) candidate of the
`instRun` run. -/
def run1Cand : CandOut := (genOne instRun 1 (rngConst 0)).1

/-- The entries persisted for that candidate. -/
def es1 : List Entry :=
  match run1Cand with
  | CandOut.placed es => es
  | _ => []

/-! ### C7: the violation kinds of `detect_conflicts` -/

/-- The six violation kinds the detector can emit. -/
def conflictKinds : List String :=
  ["teacher_clash", "room_clash", "class_clash", "subject_repeat",
   "room_capacity_mismatch", "teacher_overload"]

/-- Membership in an `if`-guarded singleton list forces equality. -/
theorem mem_ite_singleton {cond : Prop} [Decidable cond] {c x : α}
    (h : c ∈ (if cond then [x] else ([] : List α))) : c = x := by
  by_cases hc : cond
  · rw [if_pos hc] at h; simpa using h
  · rw [if_neg hc] at h; simp at h

/-- One detector step only appends conflicts of the six kinds. -/
theorem dcStep_kinds {inst : Instance} {st : DCState} {e : Entry} {st' : DCState}
    (h : dcStep inst st e = some st')
    (hprev : ∀ c ∈ st.conflicts, c.ctype ∈ conflictKinds) :
    ∀ c ∈ st'.conflicts, c.ctype ∈ conflictKinds := by
  unfold dcStep at h
  simp only [bind, Option.bind_eq_some, pure, Option.some_inj] at h
  obtain ⟨slot, hslot, room, hroom, cls, hcls, teacher, hteacher, h⟩ := h
  subst h
  intro c hc
  simp only [List.append_assoc, List.mem_append] at hc
  rcases hc with hc | hc | hc | hc | hc | hc | hc
  · exact hprev c hc
  · rw [mem_ite_singleton hc]; simp [conflictKinds]
  · rw [mem_ite_singleton hc]; simp [conflictKinds]
  · rw [mem_ite_singleton hc]; simp [conflictKinds]
  · rw [mem_ite_singleton hc]; simp [conflictKinds]
  · rw [mem_ite_singleton hc]; simp [conflictKinds]
  · rw [mem_ite_singleton hc]; simp [conflictKinds]

/-- The detector loop preserves the six-kinds invariant. -/
theorem dcLoop_kinds {inst : Instance} :
    ∀ (es : List Entry) (st st' : DCState), dcLoop inst es st = some st' →
      (∀ c ∈ st.conflicts, c.ctype ∈ conflictKinds) →
      ∀ c ∈ st'.conflicts, c.ctype ∈ conflictKinds := by
  intro es
  induction es with
  | nil =>
      intro st st' h hprev
      simp only [dcLoop, Option.some_inj] at h
      subst h; exact hprev
  | cons e es ih =>
      intro st st' h hprev
      simp only [dcLoop, bind, Option.bind] at h
      split at h
      · exact Option.noConfusion h
      next st1 hst1 => exact ih st1 st' h (dcStep_kinds hst1 hprev)

/-- A kind among the six is neither `teacher_unavailable` nor `break_slot`. -/
theorem kinds_not_missing {s : String} (h : s ∈ conflictKinds) :
    s ≠ "teacher_unavailable" ∧ s ≠ "break_slot" := by
  simp only [conflictKinds, List.mem_cons, List.not_mem_nil, or_false] at h
  rcases h with h | h | h | h | h | h <;> subst h <;> exact ⟨by decide, by decide⟩

/-- C7, amended: every violation record produced by `detect_conflicts` has
one of the six kinds `teacher_clash`, `room_clash`, `class_clash`,
`subject_repeat`, `room_capacity_mismatch`, `teacher_overload`; in
particular the detector never reports `teacher_unavailable` or `break_slot`
records, whatever the availability rows or break flags say. -/
theorem c7_detector_kinds (inst : Instance) (db : DB) (vid : Nat)
    (l : List Conflict) (h : detectConflicts inst db vid = some l) :
    ∀ c ∈ l, c.ctype ∈ conflictKinds ∧
      c.ctype ≠ "teacher_unavailable" ∧ c.ctype ≠ "break_slot" := by
  intro c hc
  unfold detectConflicts at h
  rw [Option.map_eq_some'] at h
  obtain ⟨st, hst, hl⟩ := h
  subst hl
  have hk := dcLoop_kinds _ _ _ hst (by intro c hc; simp at hc) c hc
  exact ⟨hk, kinds_not_missing hk⟩

/-- Instance for the C7 counterexample: the single entry sits on a break
slot and its teacher is marked unavailable there. -/
def instC7 : Instance :=
  { classes := [⟨1, "FY-A", 30⟩]
    subjects := [⟨1, "Maths", 1, 1, false, false⟩]
    teachers := [⟨1, "Asha", 6⟩]
    rooms := [⟨1, "R101", 40, RoomType.classroom⟩]
    slots := [⟨1, Day.monday, 1, true⟩]
    teacher_subjects := [⟨1, 1⟩]
    availability := [⟨1, 1, false⟩] }

/-- Store for the C7 counterexample. -/
def dbC7 : DB :=
  { versions := [⟨1, "v1", 100, true⟩]
    entries := [⟨1, 1, 1, 1, 1, 1, false⟩]
    logs := [] }

/-- C7, counterexample: the entry references break slot 1 and a teacher with
`is_available = false` there, yet the detector returns the empty violation
list — no `teacher_unavailable` record and no `break_slot` record. -/
theorem c7_counterexample :
    dbC7.entries = [⟨1, 1, 1, 1, 1, 1, false⟩] ∧
      instC7.availability = [⟨1, 1, false⟩] ∧
      instC7.slots = [⟨1, Day.monday, 1, true⟩] ∧
      detectConflicts instC7 dbC7 1 = some [] := by
  decide

/-- The detector's output on the stored `instRun` candidate. -/
def run1Conflicts : List Conflict := (detectConflicts instRun db1 1).getD []

set_option maxRecDepth 100000 in
/-- C7, witness: the amended theorem applied to the concrete detector run on
the generated candidate, at its first violation record. -/
theorem c7_witness :
    (run1Conflicts.getD 0 ⟨"", ""⟩).ctype ∈ conflictKinds ∧
      (run1Conflicts.getD 0 ⟨"", ""⟩).ctype ≠ "teacher_unavailable" ∧
      (run1Conflicts.getD 0 ⟨"", ""⟩).ctype ≠ "break_slot" :=
  c7_detector_kinds instRun db1 1 run1Conflicts (by rfl)
    (run1Conflicts.getD 0 ⟨"", ""⟩) (by decide)

/-! ### C9: exactly one active version -/

/-- Number of versions with `is_active = true`. -/
def activeCount (vs : List Version) : Nat :=
  vs.countP (fun v => v.is_active)

/-- Deactivated tails contribute no active versions. -/
theorem activeCount_map_false (vs : List Version) :
    (vs.map (fun w => { w with is_active := false })).countP (fun v => v.is_active) = 0 := by
  induction vs with
  | nil => rfl
  | cons v vs ih => simpa [List.countP_cons] using ih

/-- Setting the flag at an in-range position yields exactly one active
version. -/
theorem activeCount_setActiveAt :
    ∀ (vs : List Version) (k : Nat), k < vs.length →
      activeCount (setActiveAt vs k) = 1 := by
  intro vs
  induction vs with
  | nil => intro k hk; simp at hk
  | cons v vs ih =>
      intro k hk
      cases k with
      | zero =>
          simp only [setActiveAt, activeCount, List.countP_cons]
          simpa using activeCount_map_false vs
      | succ k =>
          simp only [setActiveAt, activeCount, List.countP_cons]
          have := ih k (by simpa using hk)
          simpa [activeCount] using this

/-- A found position is in range. -/
theorem findVersionPos_lt :
    ∀ (vs : List Version) (vid k : Nat), findVersionPos vs vid = some k →
      k < vs.length := by
  intro vs
  induction vs with
  | nil => intro vid k h; exact Option.noConfusion h
  | cons v vs ih =>
      intro vid k h
      simp only [findVersionPos] at h
      by_cases hv : v.id == vid
      · rw [if_pos hv] at h
        cases h
        simp
      · rw [if_neg hv] at h
        rw [Option.map_eq_some'] at h
        obtain ⟨k', hk', rfl⟩ := h
        have := ih vid k' hk'
        simp only [List.length_cons]
        omega

/-- The first-maximum position is one of the candidate positions. -/
theorem bestPos_mem (versions : List Version) :
    ∀ (ps : List Nat) (b : Nat), bestPos versions ps b = b ∨ bestPos versions ps b ∈ ps := by
  intro ps
  induction ps with
  | nil => intro b; exact Or.inl rfl
  | cons p ps ih =>
      intro b
      simp only [bestPos]
      by_cases hcmp : (versions.getD p ⟨0, "", 0, false⟩).score >
          (versions.getD b ⟨0, "", 0, false⟩).score
      · rw [if_pos hcmp]
        rcases ih p with h | h
        · exact Or.inr (by simp [h])
        · exact Or.inr (by simp [h])
      · rw [if_neg hcmp]
        rcases ih b with h | h
        · exact Or.inl h
        · exact Or.inr (by simp [h])

/-- The committed store grows by one version per iteration, and the tracked
positions of generated versions stay in range; the iteration count is added
to the position count. -/
theorem genLoop_positions (inst : Instance) :
    ∀ (n idx : Nat) (db : DB) (gps : List Nat) (rng : Rng) (db' : DB)
      (gps' : List Nat) (rng' : Rng),
      genLoop inst n idx db gps rng = Except.ok (db', gps', rng') →
      (∀ p ∈ gps, p < db.versions.length) →
      (∀ p ∈ gps', p < db'.versions.length) ∧ gps'.length = gps.length + n := by
  intro n
  induction n with
  | zero =>
      intro idx db gps rng db' gps' rng' h hin
      simp only [genLoop, Except.ok.injEq, Prod.mk.injEq] at h
      obtain ⟨h1, h2, h3⟩ := h
      subst h1; subst h2
      exact ⟨hin, rfl⟩
  | succ n ih =>
      intro idx db gps rng db' gps' rng' h hin
      simp only [genLoop] at h
      split at h
      · exact Except.noConfusion h
      · -- failed candidate
        have := ih _ _ _ _ _ _ _ h (by
          intro p hp
          simp only [commitCand, List.length_append, List.length_cons, List.length_nil]
          rcases List.mem_append.mp hp with hp' | hp'
          · have := hin p hp'; omega
          · simp only [List.mem_singleton] at hp'
            subst hp'; omega)
        obtain ⟨h1, h2⟩ := this
        refine ⟨h1, ?_⟩
        simp only [List.length_append, List.length_singleton] at h2
        omega
      · -- placed candidate
        have := ih _ _ _ _ _ _ _ h (by
          intro p hp
          simp only [commitCand, List.length_append, List.length_cons, List.length_nil]
          rcases List.mem_append.mp hp with hp' | hp'
          · have := hin p hp'; omega
          · simp only [List.mem_singleton] at hp'
            subst hp'; omega)
        obtain ⟨h1, h2⟩ := this
        refine ⟨h1, ?_⟩
        simp only [List.length_append, List.length_singleton] at h2
        omega

/-- C9: after a successful `activate(version_id)` exactly one stored version
is active, and after a generator run that produced at least one candidate
(`num_versions ≥ 1`) and committed without crashing, the selector leaves
exactly one stored version active. -/
theorem c9_exactly_one_active :
    (∀ (db : DB) (vid : Nat) (db' : DB), activateVersion db vid = some db' →
      activeCount db'.versions = 1) ∧
    (∀ (inst : Instance) (nv mr : Nat) (db : DB) (rng : Rng) (db' : DB),
      1 ≤ nv → generateTimetable inst nv mr db rng = Except.ok db' →
      activeCount db'.versions = 1) := by
  constructor
  · intro db vid db' h
    unfold activateVersion at h
    cases hf : findVersionPos db.versions vid with
    | none => rw [hf] at h; exact Option.noConfusion h
    | some k =>
        rw [hf] at h
        simp only [Option.some_inj] at h
        subst h
        exact activeCount_setActiveAt _ _ (findVersionPos_lt _ _ _ hf)
  · intro inst nv mr db rng db' hnv h
    unfold generateTimetable at h
    cases hloop : genLoop inst nv 0 db [] rng with
    | error dbe => rw [hloop] at h; exact Except.noConfusion h
    | ok out =>
        obtain ⟨db1, gps, rng1⟩ := out
        rw [hloop] at h
        have hpos := genLoop_positions inst nv 0 db [] rng db1 gps rng1 hloop
          (by intro p hp; simp at hp)
        obtain ⟨hin, hlen⟩ := hpos
        cases gps with
        | nil => simp at hlen; omega
        | cons p ps =>
            simp only [Except.ok.injEq] at h
            subst h
            have hmem : selectBest db1.versions (p :: ps) ∈ p :: ps := by
              have hsel : selectBest db1.versions (p :: ps) = bestPos db1.versions ps p := rfl
              rw [hsel]
              rcases bestPos_mem db1.versions ps p with h' | h'
              · rw [h']; simp
              · simp [h']
            have hlt : selectBest db1.versions (p :: ps) < db1.versions.length :=
              hin _ hmem
            exact activeCount_setActiveAt _ _ hlt

/-- C9, witness: the two halves applied to concrete runs — activating
version 1 in a two-version store, and the selector after the tiny failing
generation on `instOddLab`. -/
theorem c9_witness :
    activeCount (setActiveAt [⟨1, "a", 0, true⟩, ⟨2, "b", 0, true⟩] 0) = 1 ∧
      activeCount db1.versions = 1 :=
  ⟨c9_exactly_one_active.1 ⟨[⟨1, "a", 0, true⟩, ⟨2, "b", 0, true⟩], [], []⟩ 1
      ⟨setActiveAt [⟨1, "a", 0, true⟩, ⟨2, "b", 0, true⟩] 0, [], []⟩ (by rfl),
    c9_exactly_one_active.2 instRun 1 80 emptyDB (rngConst 0) db1
      (by decide) (by rfl)⟩

/-! ### C8: pre-search validation of the generate endpoint -/

/-- C8, amended: when some class has no subjects or some subject of a class
has no teacher mapping, `POST /generate` aborts before the search with the
enumerated issue list and an unchanged store (no Schedules, no ConflictLog
rows); the issue scan checks nothing else — in particular an odd
`lectures_per_week` on a lab subject is not examined. -/
theorem c8_blocked_aborts :
    (∀ (inst : Instance) (db : DB) (nv mr : Nat) (rng : Rng),
      generationIssues inst ≠ [] →
      generateEndpoint inst db nv mr rng = (EpOut.blocked (generationIssues inst), db)) ∧
    (∀ inst : Instance,
      ((∃ c ∈ inst.classes, inst.subjects.filter (fun s => s.class_id == c.id) = []) ∨
        (∃ c ∈ inst.classes, ∃ s ∈ inst.subjects.filter (fun s => s.class_id == c.id),
          ¬(inst.teacher_subjects.map (·.subject_id)).contains s.id)) →
      generationIssues inst ≠ []) := by
  constructor
  · intro inst db nv mr rng hne
    unfold generateEndpoint
    rw [if_neg (by simpa [List.isEmpty_iff] using hne)]
  · intro inst h hnil
    rw [generationIssues, List.flatMap_eq_nil_iff] at hnil
    rcases h with ⟨c, hc, hfil⟩ | ⟨c, hc, s, hs, hmap⟩
    · have := hnil c hc
      rw [hfil] at this
      simp at this
    · have := hnil c hc
      have hne : ¬(inst.subjects.filter (fun s => s.class_id == c.id)).isEmpty := by
        intro hempty
        rw [List.isEmpty_iff] at hempty
        rw [hempty] at hs
        simp at hs
      rw [if_neg hne] at this
      have hmem : ("Subject '" ++ s.name ++ "' in class '" ++ c.name ++
          "' has no teacher mapping.") ∈
          (inst.subjects.filter (fun s => s.class_id == c.id)).filterMap (fun s =>
            if (inst.teacher_subjects.map (·.subject_id)).contains s.id then none
            else some ("Subject '" ++ s.name ++ "' in class '" ++ c.name ++
              "' has no teacher mapping.")) := by
        apply List.mem_filterMap.mpr
        exact ⟨s, hs, by rw [if_neg (by simpa using hmap)]⟩
      rw [this] at hmem
      simp at hmem

/-- Store left behind by the endpoint on the odd-lab instance. -/
def dbOdd : DB := (generateEndpoint instOddLab emptyDB 1 80 (rngConst 0)).2

/-- C8, counterexample: `instOddLab` has a lab subject with odd
`lectures_per_week = 3`, yet the pre-check finds no issues; generation runs,
persists a Schedule and emits a ConflictLog row instead of aborting. -/
theorem c8_counterexample :
    (instOddLab.subjects.getD 0 ⟨0, "", 0, 0, false, false⟩).is_lab = true ∧
      (instOddLab.subjects.getD 0 ⟨0, "", 0, 0, false, false⟩).lectures_per_week % 2 = 1 ∧
      generationIssues instOddLab = [] ∧
      (generateEndpoint instOddLab emptyDB 1 80 (rngConst 0)).1 =
        EpOut.created [(1, 0, true)] ∧
      dbOdd.versions.length = 1 ∧
      dbOdd.logs =
        [⟨1, "generation_failed", "Constraints too strict to find contiguous solution."⟩] := by
  refine ⟨rfl, rfl, rfl, rfl, rfl, rfl⟩

/-- Instance whose only class has no subjects at all. -/
def instNoSubjects : Instance :=
  { classes := [⟨1, "FY-A", 30⟩]
    subjects := []
    teachers := []
    rooms := []
    slots := []
    teacher_subjects := []
    availability := [] }

/-- C8, witness: the abort theorem applied to the concrete subject-less
instance — the endpoint returns the issue list and leaves the store
untouched. -/
theorem c8_witness :
    generateEndpoint instNoSubjects emptyDB 3 80 (rngConst 0) =
      (EpOut.blocked (generationIssues instNoSubjects), emptyDB) ∧
      generationIssues instNoSubjects ≠ [] :=
  ⟨c8_blocked_aborts.1 instNoSubjects emptyDB 3 80 (rngConst 0)
      (c8_blocked_aborts.2 instNoSubjects (Or.inl ⟨⟨1, "FY-A", 30⟩, by decide, rfl⟩)),
    c8_blocked_aborts.2 instNoSubjects (Or.inl ⟨⟨1, "FY-A", 30⟩, by decide, rfl⟩)⟩

/-! ### C6: determinism -/

/-- Entries sorted by the canonical key `time_slot_id` (each class-slot pair
holds at most one entry in these runs, so the slot id is a canonical key). -/
def canonEntries (db : DB) : List Entry :=
  stableSortBy (fun a b => a.time_slot_id ≤ b.time_slot_id) db.entries

/-- C6, amended: the generator has no seed parameter; it is a deterministic
function of the instance, the arguments and the ambient `random` module
state, so two runs agree whenever the ambient RNG states agree. -/
theorem c6_rng_determinism (inst : Instance) (nv mr : Nat) (db : DB)
    (rngA rngB : Rng) (h : rngA = rngB) :
    generateTimetable inst nv mr db rngA = generateTimetable inst nv mr db rngB := by
  rw [h]

set_option maxRecDepth 1000000 in
/-- C6, counterexample: two runs of `generate` on the same instance with the
same `num_versions` and `max_retries` (and no seed — the source never seeds
the RNG), but different ambient RNG states, produce different entry sets
even after sorting by the canonical key: the first run leaves Monday light
(no entry on slot 6), the second makes it heavy. -/
theorem c6_counterexample :
    db1.entries ≠ db2.entries ∧ canonEntries db1 ≠ canonEntries db2 := by
  have h1 : db1.entries.countP (fun e => e.time_slot_id == 6) = 0 := rfl
  have h2 : db2.entries.countP (fun e => e.time_slot_id == 6) = 1 := rfl
  have h3 : (canonEntries db1).countP (fun e => e.time_slot_id == 6) = 0 := rfl
  have h4 : (canonEntries db2).countP (fun e => e.time_slot_id == 6) = 1 := rfl
  constructor
  · intro heq
    rw [heq, h2] at h1
    exact absurd h1 (by decide)
  · intro heq
    rw [heq, h4] at h3
    exact absurd h3 (by decide)

/-- C6, witness: the RNG-determinism theorem applied to a concrete run. -/
theorem c6_witness :
    generateTimetable instOddLab 2 80 emptyDB (rngConst 0) =
      generateTimetable instOddLab 2 80 emptyDB (rngConst 0) :=
  c6_rng_determinism instOddLab 2 80 emptyDB (rngConst 0) (rngConst 0) rfl

/-! ### C3: stored scores versus the scorer -/

/-- `setActiveAt` never changes a score. -/
theorem setActiveAt_scores :
    ∀ (vs : List Version) (k : Nat),
      (setActiveAt vs k).map (·.score) = vs.map (·.score) := by
  intro vs
  induction vs with
  | nil => intro k; cases k <;> rfl
  | cons v vs ih =>
      intro k
      cases k with
      | zero =>
          simp only [setActiveAt, List.map_cons, List.map_map]
          congr 1
      | succ k =>
          simp only [setActiveAt, List.map_cons]
          rw [ih]

/-- Every version committed by the loop has score 100 (search succeeded) or
0 (search failed). -/
theorem genLoop_scores (inst : Instance) :
    ∀ (n idx : Nat) (db : DB) (gps : List Nat) (rng : Rng) (db' : DB)
      (gps' : List Nat) (rng' : Rng),
      genLoop inst n idx db gps rng = Except.ok (db', gps', rng') →
      ∃ added : List Version, db'.versions = db.versions ++ added ∧
        ∀ v ∈ added, v.score = 100 ∨ v.score = 0 := by
  intro n
  induction n with
  | zero =>
      intro idx db gps rng db' gps' rng' h
      simp only [genLoop, Except.ok.injEq, Prod.mk.injEq] at h
      obtain ⟨h1, h2, h3⟩ := h
      subst h1
      exact ⟨[], by simp, by intro v hv; simp at hv⟩
  | succ n ih =>
      intro idx db gps rng db' gps' rng' h
      simp only [genLoop] at h
      split at h
      · exact Except.noConfusion h
      · obtain ⟨added, hdb, hsc⟩ := ih _ _ _ _ _ _ _ h
        refine ⟨⟨db.versions.length + 1, "Auto Formatted " ++ toString (idx + 1), 0, false⟩ :: added,
          ?_, ?_⟩
        · rw [hdb]; simp [commitCand]
        · intro v hv
          rcases List.mem_cons.mp hv with hv' | hv'
          · subst hv'; exact Or.inr rfl
          · exact hsc v hv'
      · obtain ⟨added, hdb, hsc⟩ := ih _ _ _ _ _ _ _ h
        refine ⟨⟨db.versions.length + 1, "Auto Formatted " ++ toString (idx + 1), 100, false⟩ :: added,
          ?_, ?_⟩
        · rw [hdb]; simp [commitCand]
        · intro v hv
          rcases List.mem_cons.mp hv with hv' | hv'
          · subst hv'; exact Or.inl rfl
          · exact hsc v hv'

/-- Rounding an integer-valued rational is the identity. -/
theorem roundHalfEven_intCast (z : ℤ) : roundHalfEven (z : ℚ) = z := by
  unfold roundHalfEven
  rw [Int.floor_intCast]
  simp only [sub_self]
  rw [if_pos (by norm_num)]

/-- The scorer, with its two lookups rewritten to their values. -/
theorem scoreSchedule_formula (inst : Instance) (db : DB) (vid : Nat)
    (m : Nat) (l : List Conflict)
    (hm : morningPenaltyCount inst
      (db.entries.filter (fun e => e.version_id == vid)) = some m)
    (hc : detectConflicts inst db vid = some l) :
    scoreSchedule inst db vid =
      some (max 0 (pyRound2 (100 - (2 / 5) * m - 10 * l.length))) := by
  unfold scoreSchedule
  simp only [bind, hm, hc, Option.some_bind]
  rfl

/-- Instance for the scorer example: one morning-priority subject whose only
entry sits at `slot_order = 3`, with no violations. -/
def instC3 : Instance :=
  { classes := [⟨1, "FY-A", 30⟩]
    subjects := [⟨1, "Maths", 1, 1, true, false⟩]
    teachers := [⟨1, "Asha", 6⟩]
    rooms := [⟨1, "R101", 40, RoomType.classroom⟩]
    slots := [⟨1, Day.monday, 3, false⟩]
    teacher_subjects := [⟨1, 1⟩]
    availability := [] }

/-- Store for the scorer example. -/
def dbC3 : DB :=
  { versions := [⟨1, "v1", 100, true⟩]
    entries := [⟨1, 1, 1, 1, 1, 1, false⟩]
    logs := [] }

/-- C3, amended: the generator never invokes the scorer — every version it
commits stores score 100.0 (search succeeded) or 0 (search failed), the
selector preserving those values; the scorer function itself implements the
stated formula and returns 99.6 on a version with exactly one
morning-priority entry at `slot_order = 3` and no violations. -/
theorem c3_stored_scores :
    (∀ (inst : Instance) (nv mr : Nat) (db : DB) (rng : Rng) (db' : DB),
      generateTimetable inst nv mr db rng = Except.ok db' →
      ∀ q ∈ (db'.versions.map (·.score)).drop db.versions.length,
        q = 100 ∨ q = 0) ∧
    scoreSchedule instC3 dbC3 1 = some (498 / 5) := by
  constructor
  · intro inst nv mr db rng db' h q hq
    unfold generateTimetable at h
    cases hloop : genLoop inst nv 0 db [] rng with
    | error dbe => rw [hloop] at h; exact Except.noConfusion h
    | ok out =>
        obtain ⟨db1x, gps, rng1⟩ := out
        rw [hloop] at h
        obtain ⟨added, hdb, hsc⟩ := genLoop_scores inst nv 0 db [] rng db1x gps rng1 hloop
        have hscores : db'.versions.map (·.score) =
            db.versions.map (·.score) ++ added.map (·.score) := by
          cases gps with
          | nil =>
              simp only [Except.ok.injEq] at h
              subst h
              rw [hdb, List.map_append]
          | cons p ps =>
              simp only [Except.ok.injEq] at h
              subst h
              rw [setActiveAt_scores, hdb, List.map_append]
        rw [hscores] at hq
        have hlen : (db.versions.map (·.score)).length = db.versions.length := by
          simp
        rw [← hlen, List.drop_left] at hq
        obtain ⟨v, hv, hvq⟩ := List.mem_map.mp hq
        rcases hsc v hv with h' | h' <;> rw [← hvq, h']
        · exact Or.inl rfl
        · exact Or.inr rfl
  · rw [scoreSchedule_formula instC3 dbC3 1 1 [] rfl rfl]
    have h1 : (100 : ℚ) - 2 / 5 * ((1 : ℕ) : ℚ) - 10 * ((List.length ([] : List Conflict) : ℕ) : ℚ) =
        498 / 5 := by push_cast; norm_num
    rw [h1]
    have h2 : pyRound2 ((498 : ℚ) / 5) = 498 / 5 := by
      unfold pyRound2
      have h3 : (498 : ℚ) / 5 * 100 = ((9960 : ℤ) : ℚ) := by push_cast; norm_num
      rw [h3, roundHalfEven_intCast]
      push_cast
      norm_num
    rw [h2, max_eq_right (by norm_num : (0 : ℚ) ≤ 498 / 5)]

/-- Rounding an integer-valued rational to two decimals is the identity. -/
theorem pyRound2_intCast (z : ℤ) : pyRound2 (z : ℚ) = z := by
  unfold pyRound2
  have h : (z : ℚ) * 100 = ((z * 100 : ℤ) : ℚ) := by push_cast; ring
  rw [h, roundHalfEven_intCast]
  push_cast
  field_simp

set_option maxRecDepth 1000000 in
/-- C3, counterexample: the successful `instRun` candidate stores score
100.0 although it has five morning-priority entries past slot 2 and 26
detector violations; the scorer formula on the same stored schedule yields
0, not the stored 100.0 — the generator never calls the scorer. -/
theorem c3_counterexample :
    (db1.versions.getD 0 ⟨0, "", 0, false⟩).score = 100 ∧
      morningPenaltyCount instRun db1.entries = some 5 ∧
      scoreSchedule instRun db1 1 = some 0 ∧
      (100 : ℚ) ≠ 0 := by
  refine ⟨rfl, rfl, ?_, by norm_num⟩
  have hm : morningPenaltyCount instRun
      (db1.entries.filter (fun e => e.version_id == 1)) = some 5 := rfl
  have hc : detectConflicts instRun db1 1 = some run1Conflicts := rfl
  have hlen : run1Conflicts.length = 26 := rfl
  rw [scoreSchedule_formula instRun db1 1 5 run1Conflicts hm hc, hlen]
  have h1 : (100 : ℚ) - 2 / 5 * ((5 : ℕ) : ℚ) - 10 * ((26 : ℕ) : ℚ) =
      ((-162 : ℤ) : ℚ) := by push_cast; norm_num
  rw [h1, pyRound2_intCast,
    max_eq_left (by push_cast; norm_num : (((-162 : ℤ) : ℚ)) ≤ 0)]

/-- C3, witness: the stored-score theorem applied to the concrete failing
run on `instOddLab`, whose committed version stores score 0. -/
theorem c3_witness : (0 : ℚ) = 100 ∨ (0 : ℚ) = 0 :=
  c3_stored_scores.1 instOddLab 1 80 emptyDB (rngConst 0) dbOdd (by rfl) 0 (by decide)

/-! ### Search-core invariants (for C1, C2, C4)

The backtracking search preserves: the teacher-slot pairs of filled blocks
are duplicate-free and recorded in `teacher_busy`; every filled block's
room comes from the pool of its type, its subject matches its type, and its
slot orders resolve to present, nonzero slot ids; block shapes (class, day,
slots, type) never change; and the filled-block counts grow by exactly the
placed items. -/

/-- The immutable part of a block. -/
def Block.shape (b : Block) : Nat × Day × List Nat × ItemType :=
  (b.class_id, b.day, b.slots, b.btyp)

/-- Teacher-slot pairs contributed by one block (empty when unfilled). -/
def blockPairs (slots : List TimeSlot) (b : Block) : List (Nat × Nat) :=
  match b.item with
  | none => []
  | some pi => b.slots.map (fun o => (pi.teacher_id, (slotMapLookup slots b.day o).getD 0))

/-- Teacher-slot pairs of all filled blocks. -/
def gridPairs (slots : List TimeSlot) (blocks : List Block) : List (Nat × Nat) :=
  blocks.flatMap (blockPairs slots)

/-- Whether a block is filled with the given class and subject. -/
def blockMatches (b : Block) (c s : Nat) : Bool :=
  b.class_id == c &&
    (match b.item with
     | some pi => pi.subject_id == s
     | none => false)

/-- Number of blocks filled with (class, subject) of a given type. -/
def cntFilled (blocks : List Block) (c s : Nat) (ty : ItemType) : Nat :=
  blocks.countP (fun b => blockMatches b c s && b.btyp == ty)

/-- Number of demand items for (class, subject) of a given type. -/
def itemCnt (items : List Item) (c s : Nat) (ty : ItemType) : Nat :=
  items.countP (fun it => it.class_id == c && it.subject_id == s && it.typ == ty)

/-- The room pool used for a block type (lines 197). -/
def poolFor (classrooms labRooms : List Room) : ItemType → List Room
  | ItemType.T => classrooms
  | ItemType.L => labRooms

/-- Wellformedness of one filled block. -/
structure FilledOk (slots : List TimeSlot) (classrooms labRooms : List Room)
    (subjects : List Subject) (b : Block) (pi : PlacedItem) : Prop where
  slots_ok : ∀ o ∈ b.slots, pyFalsy (slotMapLookup slots b.day o) = false
  room_ok : ∃ r ∈ poolFor classrooms labRooms b.btyp, r.id = pi.room_id
  subj_ok : ∃ s ∈ subjects, s.id = pi.subject_id ∧ (b.btyp = ItemType.L ↔ s.is_lab = true)

/-- The state invariant maintained by `place_item`. -/
structure SearchInv (slots : List TimeSlot) (classrooms labRooms : List Room)
    (subjects : List Subject) (st : SearchSt) : Prop where
  nodupPairs : (gridPairs slots st.blocks).Nodup
  pairsBusy : ∀ p ∈ gridPairs slots st.blocks, p ∈ st.tbusy
  filledOk : ∀ b ∈ st.blocks, ∀ pi, b.item = some pi →
    FilledOk slots classrooms labRooms subjects b pi
  slotsNodup : ∀ b ∈ st.blocks, b.slots.Nodup

/-- A demand item refers to a subject of its own type. -/
def ItemOk (subjects : List Subject) (it : Item) : Prop :=
  ∃ s ∈ subjects, s.id = it.subject_id ∧ (it.typ = ItemType.L ↔ s.is_lab = true)

/-- What a successful `place_item` call guarantees. -/
structure PlaceOut (slots : List TimeSlot) (classrooms labRooms : List Room)
    (subjects : List Subject) (st : SearchSt) (items : List Item)
    (st' : SearchSt) : Prop where
  shapes : st'.blocks.map Block.shape = st.blocks.map Block.shape
  inv : SearchInv slots classrooms labRooms subjects st'
  counts : ∀ c s ty, cntFilled st'.blocks c s ty =
    cntFilled st.blocks c s ty + itemCnt items c s ty

/-- A successful slot lookup comes from a non-break row of the slot table
with the looked-up day and order. -/
theorem slotMapLookup_mem {slots : List TimeSlot} {d : Day} {o v : Nat}
    (h : slotMapLookup slots d o = some v) :
    ∃ t ∈ slots, t.id = v ∧ t.day_of_week = d ∧ t.slot_order = o ∧ t.is_break = false := by
  unfold slotMapLookup at h
  rw [Option.map_eq_some'] at h
  obtain ⟨t, hf, hid⟩ := h
  have hp := List.find?_some hf
  have hm := List.mem_of_find?_eq_some hf
  rw [List.mem_reverse] at hm
  have hm' := mem_stableSortBy hm
  have hm'' := List.mem_filter.mp hm'
  simp only [Bool.and_eq_true, beq_iff_eq] at hp
  refine ⟨t, hm''.1, hid, hp.1, hp.2, ?_⟩
  have := hm''.2
  simp only [Bool.not_eq_true'] at this
  exact this

/-- With duplicate-free slot ids, the slot map is injective: two lookups
returning the same id were for the same (day, order). -/
theorem slotMapLookup_inj {slots : List TimeSlot}
    (hinj : (slots.map (·.id)).Nodup) {d1 d2 : Day} {o1 o2 v : Nat}
    (h1 : slotMapLookup slots d1 o1 = some v)
    (h2 : slotMapLookup slots d2 o2 = some v) : d1 = d2 ∧ o1 = o2 := by
  obtain ⟨t1, hm1, hid1, hd1, ho1, _⟩ := slotMapLookup_mem h1
  obtain ⟨t2, hm2, hid2, hd2, ho2, _⟩ := slotMapLookup_mem h2
  have : t1 = t2 :=
    List.inj_on_of_nodup_map hinj hm1 hm2 (by simp only [hid1, hid2])
  subst this
  constructor
  · rw [← hd1, hd2]
  · rw [← ho1, ho2]

/-- Reading a falsy check that failed: the value is present and nonzero. -/
theorem pyFalsy_false {o : Option Nat} (h : pyFalsy o = false) :
    ∃ n, o = some n ∧ n ≠ 0 := by
  cases o with
  | none => simp [pyFalsy] at h
  | some n =>
      refine ⟨n, rfl, ?_⟩
      simp only [pyFalsy, beq_eq_false_iff_ne, ne_eq] at h
      exact h

/-- What a passed teacher check (lines 188-195) says about each slot. -/
theorem teacherConflict_false {slots : List TimeSlot} {tbusy : List (Nat × Nat)}
    {tid : Nat} {d : Day} {ss : List Nat}
    (h : teacherConflict slots tbusy tid d ss = false) :
    ∀ o ∈ ss, pyFalsy (slotMapLookup slots d o) = false ∧
      (tid, (slotMapLookup slots d o).getD 0) ∉ tbusy := by
  intro o ho
  unfold teacherConflict at h
  rw [List.any_eq_false] at h
  have := h o ho
  simp only [Bool.or_eq_true, not_or] at this
  obtain ⟨h1, h2⟩ := this
  refine ⟨by simpa using h1, ?_⟩
  intro hmem
  exact h2 (List.contains_iff_exists_mem_beq.mpr ⟨_, hmem, by simp⟩)

/-- What a passed room check (lines 202-207) says about each slot. -/
theorem roomFree_true {slots : List TimeSlot} {rbusy : List (Nat × Nat)}
    {rid : Nat} {d : Day} {ss : List Nat}
    (h : roomFree slots rbusy rid d ss = true) :
    ∀ o ∈ ss, pyFalsy (slotMapLookup slots d o) = false := by
  intro o ho
  unfold roomFree at h
  rw [List.all_eq_true] at h
  have := h o ho
  simp only [Bool.and_eq_true, Bool.not_eq_true'] at this
  exact this.1

/-- Membership in the busy set built by the placement's fold (lines
216-223). -/
theorem mem_foldl_cons {f : Nat → Nat × Nat} :
    ∀ (ss : List Nat) (init : List (Nat × Nat)) (x : Nat × Nat),
      x ∈ ss.foldl (fun tb o => f o :: tb) init ↔ x ∈ init ∨ ∃ o ∈ ss, f o = x := by
  intro ss
  induction ss with
  | nil => intro init x; simp
  | cons o os ih =>
      intro init x
      simp only [List.foldl_cons]
      rw [ih]
      constructor
      · rintro (h | h)
        · rcases List.mem_cons.mp h with h' | h'
          · exact Or.inr ⟨o, by simp, h'.symm⟩
          · exact Or.inl h'
        · obtain ⟨o', ho', hfo⟩ := h
          exact Or.inr ⟨o', by simp [ho'], hfo⟩
      · rintro (h | h)
        · exact Or.inl (List.mem_cons.mpr (Or.inr h))
        · obtain ⟨o', ho', hfo⟩ := h
          rcases List.mem_cons.mp ho' with h' | h'
          · subst h'; exact Or.inl (List.mem_cons.mpr (Or.inl hfo.symm))
          · exact Or.inr ⟨o', h', hfo⟩

/-- A list with an in-range index splits around that element. -/
theorem eq_take_cons_drop {l : List α} {i : Nat} {b : α}
    (h : l.get? i = some b) : l = l.take i ++ b :: l.drop (i + 1) := by
  have hlen : i < l.length := (List.get?_eq_some.mp h).1
  have hb : l[i] = b := by
    obtain ⟨h1, h2⟩ := List.get?_eq_some.mp h
    simpa [List.get_eq_getElem] using h2
  conv_lhs => rw [← List.take_append_drop i l]
  rw [List.drop_eq_getElem_cons hlen, hb]

/-- Setting an in-range index splits the same way. -/
theorem set_eq_take_cons_drop {l : List α} {i : Nat} {b : α} (a : α)
    (h : l.get? i = some b) : l.set i a = l.take i ++ a :: l.drop (i + 1) := by
  have hlen : i < l.length := (List.get?_eq_some.mp h).1
  induction l generalizing i with
  | nil => simp at hlen
  | cons x xs ih =>
      cases i with
      | zero => simp [List.set]
      | succ i =>
          simp only [List.get?] at h
          simp only [List.set, List.take, List.drop]
          rw [ih h (by simpa using hlen)]
          rfl

/-- Filling an empty block after the daily, teacher and room checks have
passed preserves the search invariant, keeps the block shapes, and raises
exactly one filled-block count. -/
theorem fill_step
    {slots : List TimeSlot} {classrooms labRooms : List Room} {subjects : List Subject}
    {st : SearchSt} {item : Item} {tid rid bi : Nat} {b : Block}
    (hinj : (slots.map (·.id)).Nodup)
    (hinv : SearchInv slots classrooms labRooms subjects st)
    (hget : st.blocks.get? bi = some b)
    (hclass : b.class_id = item.class_id)
    (hbtyp : b.btyp = item.typ)
    (hempty : b.item = none)
    (hitem : ItemOk subjects item)
    (htc : teacherConflict slots st.tbusy tid b.day b.slots = false)
    (hroom : ∃ r ∈ poolFor classrooms labRooms item.typ, r.id = rid) :
    SearchInv slots classrooms labRooms subjects
      ⟨st.blocks.set bi { b with item := some ⟨item.subject_id, tid, rid⟩ },
        b.slots.foldl (fun tb o => (tid, (slotMapLookup slots b.day o).getD 0) :: tb) st.tbusy,
        b.slots.foldl (fun rb o => (rid, (slotMapLookup slots b.day o).getD 0) :: rb) st.rbusy⟩ ∧
    (st.blocks.set bi { b with item := some ⟨item.subject_id, tid, rid⟩ }).map Block.shape =
      st.blocks.map Block.shape ∧
    (∀ c s ty,
      cntFilled (st.blocks.set bi { b with item := some ⟨item.subject_id, tid, rid⟩ }) c s ty =
        cntFilled st.blocks c s ty +
          (if item.class_id == c && item.subject_id == s && item.typ == ty then 1 else 0)) := by
  set filled : Block := { b with item := some ⟨item.subject_id, tid, rid⟩ } with hfilled
  have hbmem : b ∈ st.blocks := List.get?_mem hget
  have hdec1 : st.blocks = st.blocks.take bi ++ b :: st.blocks.drop (bi + 1) :=
    eq_take_cons_drop hget
  have hdec2 : st.blocks.set bi filled =
      st.blocks.take bi ++ filled :: st.blocks.drop (bi + 1) :=
    set_eq_take_cons_drop filled hget
  have htcf := teacherConflict_false htc
  -- the new pairs
  have hN : blockPairs slots filled =
      b.slots.map (fun o => (tid, (slotMapLookup slots b.day o).getD 0)) := rfl
  have hpairs1 : gridPairs slots (st.blocks.set bi filled) =
      gridPairs slots (st.blocks.take bi) ++ blockPairs slots filled ++
        gridPairs slots (st.blocks.drop (bi + 1)) := by
    rw [hdec2]
    simp [gridPairs, List.flatMap_append, List.append_assoc]
  have hpairs0 : gridPairs slots st.blocks =
      gridPairs slots (st.blocks.take bi) ++ gridPairs slots (st.blocks.drop (bi + 1)) := by
    conv_lhs => rw [hdec1]
    simp [gridPairs, List.flatMap_append, blockPairs, hempty]
  -- the new pairs are nodup
  have hNnodup : (blockPairs slots filled).Nodup := by
    rw [hN]
    apply List.Nodup.map_on _ (hinv.slotsNodup b hbmem)
    intro o1 h1 o2 h2 heq
    obtain ⟨n1, hs1, _⟩ := pyFalsy_false (htcf o1 h1).1
    obtain ⟨n2, hs2, _⟩ := pyFalsy_false (htcf o2 h2).1
    have hg : (slotMapLookup slots b.day o1).getD 0 = (slotMapLookup slots b.day o2).getD 0 := by
      have := congrArg Prod.snd heq
      simpa using this
    rw [hs1, hs2] at hg
    simp only [Option.getD_some] at hg
    subst hg
    exact (slotMapLookup_inj hinj hs1 hs2).2
  -- the new pairs avoid everything already placed
  have hNfresh : ∀ x ∈ blockPairs slots filled, x ∉ gridPairs slots st.blocks := by
    rw [hN]
    intro x hx
    obtain ⟨o, ho, hfo⟩ := List.mem_map.mp hx
    intro hmem
    have := (htcf o ho).2
    rw [hfo] at this
    exact this (hinv.pairsBusy x hmem)
  refine ⟨?_, ?_, ?_⟩
  · constructor
    · -- nodupPairs
      rw [hpairs1]
      have hperm : List.Perm
          (gridPairs slots (st.blocks.take bi) ++ blockPairs slots filled ++
            gridPairs slots (st.blocks.drop (bi + 1)))
          (blockPairs slots filled ++ (gridPairs slots (st.blocks.take bi) ++
            gridPairs slots (st.blocks.drop (bi + 1)))) := by
        have h2 := (@List.perm_append_comm _
          (gridPairs slots (st.blocks.take bi))
          (blockPairs slots filled)).append_right
          (gridPairs slots (st.blocks.drop (bi + 1)))
        refine h2.trans ?_
        rw [List.append_assoc]
      rw [hperm.nodup_iff]
      rw [List.nodup_append]
      refine ⟨hNnodup, by rw [← hpairs0]; exact hinv.nodupPairs, ?_⟩
      intro x hx hx'
      exact hNfresh x hx (by rw [hpairs0]; exact hx')
    · -- pairsBusy
      intro p hp
      rw [hpairs1] at hp
      simp only [List.mem_append] at hp
      rcases hp with (hp | hp) | hp
      · exact (mem_foldl_cons _ _ _).mpr (Or.inl (hinv.pairsBusy p (by
          rw [hpairs0]; exact List.mem_append.mpr (Or.inl hp))))
      · rw [hN] at hp
        obtain ⟨o, ho, hfo⟩ := List.mem_map.mp hp
        exact (mem_foldl_cons _ _ _).mpr (Or.inr ⟨o, ho, hfo⟩)
      · exact (mem_foldl_cons _ _ _).mpr (Or.inl (hinv.pairsBusy p (by
          rw [hpairs0]; exact List.mem_append.mpr (Or.inr hp))))
    · -- filledOk
      intro b' hb' pi hpi
      rw [hdec2] at hb'
      simp only [List.mem_append, List.mem_cons] at hb'
      rcases hb' with hb' | hb' | hb'
      · exact hinv.filledOk b' (by rw [hdec1]; exact List.mem_append.mpr (Or.inl hb')) pi hpi
      · subst hb'
        simp only [hfilled, Option.some_inj] at hpi
        refine ⟨?_, ?_, ?_⟩
        · intro o ho
          exact (htcf o ho).1
        · rw [← hpi]
          have : filled.btyp = item.typ := hbtyp
          rw [this]
          exact hroom
        · rw [← hpi]
          obtain ⟨s, hs, hsid, hlab⟩ := hitem
          refine ⟨s, hs, hsid, ?_⟩
          have : filled.btyp = item.typ := hbtyp
          rw [this]
          exact hlab
      · exact hinv.filledOk b'
          (by rw [hdec1]
              exact List.mem_append.mpr (Or.inr (List.mem_cons.mpr (Or.inr hb')))) pi hpi
    · -- slotsNodup
      intro b' hb'
      rw [hdec2] at hb'
      simp only [List.mem_append, List.mem_cons] at hb'
      rcases hb' with hb' | hb' | hb'
      · exact hinv.slotsNodup b' (by rw [hdec1]; exact List.mem_append.mpr (Or.inl hb'))
      · subst hb'
        exact hinv.slotsNodup b hbmem
      · exact hinv.slotsNodup b'
          (by rw [hdec1]
              exact List.mem_append.mpr (Or.inr (List.mem_cons.mpr (Or.inr hb'))))
  · -- shapes
    rw [hdec2]
    conv_rhs => rw [hdec1]
    simp only [List.map_append, List.map_cons]
    rfl
  · -- counts
    intro c s ty
    rw [hdec2]
    conv_rhs => rw [hdec1]
    unfold cntFilled
    rw [List.countP_append, List.countP_append, List.countP_cons, List.countP_cons]
    have hb0 : (blockMatches b c s && b.btyp == ty) = false := by
      unfold blockMatches
      rw [hempty]
      simp
    have hf0 : (blockMatches filled c s && filled.btyp == ty) =
        (item.class_id == c && item.subject_id == s && item.typ == ty) := by
      unfold blockMatches
      show (((b.class_id == c) && (item.subject_id == s)) && (b.btyp == ty)) = _
      rw [hclass, hbtyp]
    rw [hb0, hf0]
    simp only [Bool.false_eq_true, if_false]
    omega

/-- Soundness of candidate block indices: each points at an empty block of
the item's class and type. -/
def CandsOk (blocks : List Block) (item : Item) (cands : List Nat) : Prop :=
  ∀ j ∈ cands, ∃ b, blocks.get? j = some b ∧ b.class_id = item.class_id ∧
    b.btyp = item.typ ∧ b.item = none

/-- The filtered index list points at matching empty blocks. -/
theorem validIdxsFrom_spec (item : Item) :
    ∀ (blocks : List Block) (i : Nat), ∀ j ∈ validIdxsFrom i item blocks,
      i ≤ j ∧ ∃ b, blocks.get? (j - i) = some b ∧ b.class_id = item.class_id ∧
        b.btyp = item.typ ∧ b.item = none := by
  intro blocks
  induction blocks with
  | nil => intro i j hj; simp [validIdxsFrom] at hj
  | cons b bs ih =>
      intro i j hj
      simp only [validIdxsFrom] at hj
      have htail : j ∈ validIdxsFrom (i + 1) item bs →
          i ≤ j ∧ ∃ b', (b :: bs).get? (j - i) = some b' ∧
            b'.class_id = item.class_id ∧ b'.btyp = item.typ ∧ b'.item = none := by
        intro hj'
        obtain ⟨hle, b', hb', hprops⟩ := ih (i + 1) j hj'
        refine ⟨by omega, b', ?_, hprops⟩
        have hk : j - i = (j - (i + 1)) + 1 := by omega
        rw [hk]
        simpa [List.get?] using hb'
      by_cases hp : (b.class_id == item.class_id && b.btyp == item.typ && b.item.isNone) = true
      · rw [if_pos hp] at hj
        rcases List.mem_cons.mp hj with hj' | hj'
        · subst hj'
          refine ⟨Nat.le_refl _, b, by simp, ?_⟩
          simp only [Bool.and_eq_true, beq_iff_eq, Option.isNone_iff_eq_none] at hp
          exact ⟨hp.1.1, hp.1.2, hp.2⟩
        · exact htail hj'
      · rw [if_neg hp] at hj
        exact htail hj

/-- The shuffled candidate list of `place_item` is sound. -/
theorem candsOk_shuffled (item : Item) (blocks : List Block) (rng : Rng) :
    CandsOk blocks item (pyShuffle (validIdxs item blocks) rng).1 := by
  intro j hj
  have hj' : j ∈ validIdxs item blocks := mem_pyShuffle hj
  obtain ⟨hle, b, hb, hprops⟩ := validIdxsFrom_spec item blocks 0 j hj'
  exact ⟨b, by simpa using hb, hprops⟩

/-- A picked room belongs to the pool it was drawn from. -/
theorem pickRoom_mem {slots : List TimeSlot} {rbusy : List (Nat × Nat)}
    {d : Day} {ss : List Nat} {pool : List Room} {rid : Nat}
    (h : pickRoom slots rbusy d ss pool = some rid) : ∃ r ∈ pool, r.id = rid := by
  unfold pickRoom at h
  rw [Option.map_eq_some'] at h
  obtain ⟨r, hf, hid⟩ := h
  exact ⟨r, List.mem_of_find?_eq_some hf, hid⟩

/-- The candidate-block loop of `place_item`: a successful return extends
the filled blocks by exactly the current item and the recursively placed
rest, preserving the invariant and the shapes. -/
theorem tryBlocks_spec
    {slots : List TimeSlot} {classrooms labRooms : List Room} {subjects : List Subject}
    (hinj : (slots.map (·.id)).Nodup)
    {recur : SearchSt → Rng → Option SearchSt × Rng} {rest : List Item}
    (hrec : ∀ st rng st' rng', recur st rng = (some st', rng') →
      SearchInv slots classrooms labRooms subjects st →
      PlaceOut slots classrooms labRooms subjects st rest st')
    {item : Item} {tid : Nat} (hitem : ItemOk subjects item) :
    ∀ (cands : List Nat) (st : SearchSt) (rng : Rng) (st' : SearchSt) (rng' : Rng),
      tryBlocks slots classrooms labRooms recur item tid cands st rng = (some st', rng') →
      SearchInv slots classrooms labRooms subjects st →
      CandsOk st.blocks item cands →
      PlaceOut slots classrooms labRooms subjects st (item :: rest) st' := by
  intro cands
  induction cands with
  | nil =>
      intro st rng st' rng' h _ _
      simp [tryBlocks] at h
  | cons bi more ih =>
      intro st rng st' rng' h hinv hcands
      obtain ⟨b0, hget, hclass, hbtyp, hempty⟩ := hcands bi (by simp)
      have hb : st.blocks.getD bi junkBlock = b0 := by
        rw [List.getD_eq_getElem?_getD, ← List.get?_eq_getElem?, hget]
        rfl
      have hmore : CandsOk st.blocks item more := fun j hj => hcands j (by simp [hj])
      simp only [tryBlocks] at h
      rw [hb] at h
      set pool := (if item.typ == ItemType.T then classrooms else labRooms) with hpooldef
      by_cases c1 : ((dailySubs st.blocks item.class_id b0.day).contains item.subject_id) = true
      · rw [if_pos c1] at h
        exact ih st rng st' rng' h hinv hmore
      · rw [if_neg c1] at h
        by_cases c2 : (teacherConflict slots st.tbusy tid b0.day b0.slots) = true
        · rw [if_pos c2] at h
          exact ih st rng st' rng' h hinv hmore
        · rw [if_neg c2] at h
          have h2f : teacherConflict slots st.tbusy tid b0.day b0.slots = false := by
            revert c2
            cases teacherConflict slots st.tbusy tid b0.day b0.slots <;> simp
          by_cases c3 : (pyFalsy (pickRoom slots st.rbusy b0.day b0.slots
              (pyShuffle pool rng).1)) = true
          · rw [if_pos c3] at h
            exact ih st (pyShuffle pool rng).2 st' rng' h hinv hmore
          · rw [if_neg c3] at h
            have h3f : pyFalsy (pickRoom slots st.rbusy b0.day b0.slots
                (pyShuffle pool rng).1) = false := by
              revert c3
              cases pyFalsy (pickRoom slots st.rbusy b0.day b0.slots
                (pyShuffle pool rng).1) <;> simp
            obtain ⟨rid, hrideq, hrid0⟩ := pyFalsy_false h3f
            have hpool : ∃ r ∈ poolFor classrooms labRooms item.typ, r.id = rid := by
              obtain ⟨r, hr, hrid'⟩ := pickRoom_mem hrideq
              have hr' := mem_pyShuffle hr
              refine ⟨r, ?_, hrid'⟩
              rw [hpooldef] at hr'
              cases hty : item.typ
              · rw [hty] at hr'
                simpa [poolFor] using hr'
              · rw [hty] at hr'
                simpa [poolFor] using hr'
            rw [hrideq] at h
            simp only [Option.getD_some] at h
            split at h
            · next st'' rng2 heq =>
                simp only [Prod.mk.injEq, Option.some_inj] at h
                obtain ⟨h4, h5⟩ := h
                subst h4
                subst h5
                have hfill := fill_step hinj hinv hget hclass hbtyp hempty hitem h2f hpool
                have hpo := hrec _ _ _ _ heq hfill.1
                refine ⟨hpo.shapes.trans hfill.2.1, hpo.inv, ?_⟩
                intro c s ty
                rw [hpo.counts, hfill.2.2 c s ty]
                unfold itemCnt
                rw [List.countP_cons]
                omega
            · next rng2 heq =>
                exact ih st rng2 st' rng' h hinv hmore

/-- `place_item` soundness, by induction on the fuel. -/
theorem place_spec
    {slots : List TimeSlot} {tss : List TeacherSubject}
    {classrooms labRooms : List Room} {subjects : List Subject}
    (hinj : (slots.map (·.id)).Nodup) :
    ∀ (fuel : Nat) (items : List Item) (st : SearchSt) (rng : Rng)
      (st' : SearchSt) (rng' : Rng),
      place slots tss classrooms labRooms fuel items st rng = (some st', rng') →
      SearchInv slots classrooms labRooms subjects st →
      (∀ it ∈ items, ItemOk subjects it) →
      PlaceOut slots classrooms labRooms subjects st items st' := by
  intro fuel
  induction fuel with
  | zero =>
      intro items st rng st' rng' h _ _
      simp [place] at h
  | succ fuel ih =>
      intro items st rng st' rng' h hinv hitems
      cases items with
      | nil =>
          simp only [place, Prod.mk.injEq, Option.some_inj] at h
          obtain ⟨h1, _⟩ := h
          subst h1
          refine ⟨rfl, hinv, ?_⟩
          intro c s ty
          simp [itemCnt]
      | cons item rest =>
          simp only [place] at h
          split at h
          · simp at h
          · exact tryBlocks_spec hinj
              (fun st2 rng2 st2' rng2' hh hinv2 =>
                ih rest st2 rng2 st2' rng2' hh hinv2
                  (fun it hit => hitems it (List.mem_cons.mpr (Or.inr hit))))
              (hitems item (List.mem_cons.mpr (Or.inl rfl)))
              _ st _ st' rng' h hinv (candsOk_shuffled item st.blocks rng)

/-- Shape facts of every block of the grid builder: empty, duplicate-free
slot orders, lab blocks two slots wide, theory blocks one. -/
theorem buildClassGrid_props (cid : Nat) (rng : Rng) :
    ∀ b ∈ (buildClassGrid cid rng).1, b.item = none ∧ b.slots.Nodup ∧
      (b.btyp = ItemType.L → b.slots.length = 2) ∧
      (b.btyp = ItemType.T → b.slots.length = 1) := by
  intro b hb
  unfold buildClassGrid at hb
  simp only [List.mem_flatMap] at hb
  obtain ⟨⟨i, d⟩, _, hb⟩ := hb
  by_cases hi : i < 3
  · rw [if_pos hi] at hb
    simp only [heavyBlocks, List.mem_cons, List.not_mem_nil, or_false] at hb
    rcases hb with rfl | rfl | rfl | rfl | rfl <;>
      refine ⟨rfl, by simp, by simp, by simp⟩
  · rw [if_neg hi] at hb
    simp only [lightBlocks, List.mem_cons, List.not_mem_nil, or_false] at hb
    rcases hb with rfl | rfl | rfl | rfl <;>
      refine ⟨rfl, by simp, by simp, by simp⟩

/-- Same facts for the whole grid. -/
theorem buildAllGrids_props :
    ∀ (classes : List ClassGroup) (rng : Rng),
      ∀ b ∈ (buildAllGrids classes rng).1, b.item = none ∧ b.slots.Nodup ∧
        (b.btyp = ItemType.L → b.slots.length = 2) ∧
        (b.btyp = ItemType.T → b.slots.length = 1) := by
  intro classes
  induction classes with
  | nil => intro rng b hb; simp [buildAllGrids] at hb
  | cons c rest ih =>
      intro rng b hb
      simp only [buildAllGrids, List.mem_append] at hb
      rcases hb with hb | hb
      · exact buildClassGrid_props c.id rng b hb
      · exact ih _ b hb

/-- An all-empty grid contributes no teacher-slot pairs. -/
theorem gridPairs_eq_nil {slots : List TimeSlot} :
    ∀ {blocks : List Block}, (∀ b ∈ blocks, b.item = none) →
      gridPairs slots blocks = [] := by
  intro blocks
  induction blocks with
  | nil => intro _; rfl
  | cons b bs ih =>
      intro hall
      have hb : b.item = none := hall b (by simp)
      simp only [gridPairs, List.flatMap_cons]
      rw [show blockPairs slots b = [] from by simp [blockPairs, hb]]
      simpa [gridPairs] using ih (fun b' hb' => hall b' (by simp [hb']))

/-- The invariant holds on the freshly built, all-empty grid with empty busy
sets. -/
theorem searchInv_init {slots : List TimeSlot} {classrooms labRooms : List Room}
    {subjects : List Subject} {grid : List Block}
    (hempty : ∀ b ∈ grid, b.item = none)
    (hnd : ∀ b ∈ grid, b.slots.Nodup) :
    SearchInv slots classrooms labRooms subjects ⟨grid, [], []⟩ := by
  constructor
  · rw [gridPairs_eq_nil hempty]
    exact List.nodup_nil
  · rw [gridPairs_eq_nil hempty]
    intro p hp
    simp at hp
  · intro b hb pi hpi
    rw [hempty b hb] at hpi
    exact Option.noConfusion hpi
  · exact hnd

/-- Every item of one class's expansion names one of its subjects, with the
item type tracking `is_lab`, and carries that class's id. -/
theorem expandClass_mem {subjects : List Subject} {c : ClassGroup} :
    ∀ it ∈ expandClass subjects c,
      (∃ s ∈ subjects, s.id = it.subject_id ∧ (it.typ = ItemType.L ↔ s.is_lab = true)) ∧
        it.class_id = c.id := by
  intro it hit
  unfold expandClass at hit
  simp only [List.mem_append, List.mem_flatMap] at hit
  rcases hit with ⟨s, hs, hrep⟩ | ⟨s, hs, hrep⟩
  · by_cases hlab : s.is_lab
    · rw [if_pos hlab] at hrep
      have := List.eq_of_mem_replicate hrep
      subst this
      exact ⟨⟨s, (List.mem_filter.mp hs).1, rfl, by simp [hlab]⟩, rfl⟩
    · rw [if_neg hlab] at hrep
      simp at hrep
  · by_cases hlab : s.is_lab
    · rw [if_pos hlab] at hrep
      simp at hrep
    · rw [if_neg hlab] at hrep
      have := List.eq_of_mem_replicate hrep
      subst this
      refine ⟨⟨s, (List.mem_filter.mp hs).1, rfl, ?_⟩, rfl⟩
      constructor
      · intro hty; exact ItemType.noConfusion hty
      · intro hl; exact absurd hl hlab

/-- Every item the demand expander hands the search is wellformed. -/
theorem buildItems_itemOk {classes : List ClassGroup} {subjects : List Subject}
    {rng : Rng} : ∀ it ∈ (buildItems classes subjects rng).1, ItemOk subjects it := by
  intro it hit
  unfold buildItems pySortTypeRev at hit
  simp only [List.mem_append] at hit
  have hit' : it ∈ (pyShuffle (expandAll classes subjects) rng).1 := by
    rcases hit with hit | hit
    · exact (List.mem_filter.mp hit).1
    · exact (List.mem_filter.mp hit).1
  have hmem : it ∈ expandAll classes subjects := mem_pyShuffle hit'
  unfold expandAll at hmem
  simp only [List.mem_flatMap] at hmem
  obtain ⟨c, _, hc⟩ := hmem
  exact (expandClass_mem it hc).1

/-- Counting splits over a boolean partition of the list. -/
theorem countP_partition (p q : α → Bool) :
    ∀ l : List α, (l.filter q).countP p + (l.filter (fun x => !q x)).countP p = l.countP p := by
  intro l
  induction l with
  | nil => rfl
  | cons x xs ih =>
      simp only [List.filter_cons, List.countP_cons]
      cases hq : q x <;> simp [hq, List.countP_cons] <;> omega

/-- The stable type sort does not change any count. -/
theorem countP_pySortTypeRev (p : Item → Bool) (l : List Item) :
    (pySortTypeRev l).countP p = l.countP p := by
  unfold pySortTypeRev
  rw [List.countP_append]
  have hcongr : l.filter (fun it => it.typ == ItemType.L) =
      l.filter (fun it => !(it.typ == ItemType.T)) :=
    List.filter_congr (by intro it _; cases it.typ <;> rfl)
  rw [hcongr]
  exact countP_partition p _ l

/-- Demand counts survive the shuffle and the sort. -/
theorem itemCnt_buildItems_eq (classes : List ClassGroup) (subjects : List Subject)
    (rng : Rng) (c s : Nat) (ty : ItemType) :
    itemCnt (buildItems classes subjects rng).1 c s ty =
      itemCnt (expandAll classes subjects) c s ty := by
  unfold itemCnt buildItems
  rw [countP_pySortTypeRev, countP_pyShuffle]

/-- In a per-subject expansion over subjects with distinct ids, only the
target subject's own contribution is counted. -/
theorem countP_flatMap_by_subject (mk : Subject → List Item) (p : Item → Bool)
    (s0 : Subject) (hsub : ∀ s : Subject, ∀ it ∈ mk s, it.subject_id = s.id)
    (hp : ∀ it : Item, p it = true → it.subject_id = s0.id) :
    ∀ csubs : List Subject, s0 ∈ csubs → (csubs.map (·.id)).Nodup →
      (csubs.flatMap mk).countP p = (mk s0).countP p := by
  intro csubs
  induction csubs with
  | nil => intro h; simp at h
  | cons x rest ih =>
      intro hmem hnd
      simp only [List.flatMap_cons, List.countP_append]
      have hnd' : (rest.map (·.id)).Nodup := (List.nodup_cons.mp hnd).2
      have hxid : x.id ∉ rest.map (·.id) := (List.nodup_cons.mp hnd).1
      rcases List.mem_cons.mp hmem with heq | hmem'
      · subst heq
        have hrest : (rest.flatMap mk).countP p = 0 := by
          rw [List.countP_eq_zero]
          intro it hit
          simp only [List.mem_flatMap] at hit
          obtain ⟨s, hs, hits⟩ := hit
          intro hpit
          have h1 := hsub s it hits
          have h2 := hp it hpit
          rw [h1] at h2
          exact hxid (h2 ▸ List.mem_map_of_mem (·.id) hs)
        omega
      · have hhead : (mk x).countP p = 0 := by
          rw [List.countP_eq_zero]
          intro it hit hpit
          have h1 := hsub x it hit
          have h2 := hp it hpit
          rw [h1] at h2
          exact hxid (h2 ▸ List.mem_map_of_mem (·.id) hmem')
        rw [hhead, ih hmem' hnd']
        omega

/-- Lab half of `expandClass` for one subject. -/
def mkLab (c : ClassGroup) (s : Subject) : List Item :=
  if s.is_lab then List.replicate (s.lectures_per_week / 2) ⟨c.id, s.id, ItemType.L⟩ else []

/-- Theory half of `expandClass` for one subject. -/
def mkTheory (c : ClassGroup) (s : Subject) : List Item :=
  if s.is_lab then [] else List.replicate s.lectures_per_week ⟨c.id, s.id, ItemType.T⟩

/-- The expected number of demand items of each type for one subject. -/
def expectedCnt (s : Subject) (ty : ItemType) : Nat :=
  if s.is_lab then (if ty = ItemType.L then s.lectures_per_week / 2 else 0)
  else (if ty = ItemType.T then s.lectures_per_week else 0)

/-- Demand count of one class's expansion at one of its own subjects. -/
theorem itemCnt_expandClass_self {subjects : List Subject} {c : ClassGroup}
    {s0 : Subject} (hnd : (subjects.map (·.id)).Nodup) (hs0 : s0 ∈ subjects)
    (hcls : s0.class_id = c.id) (ty : ItemType) :
    itemCnt (expandClass subjects c) c.id s0.id ty = expectedCnt s0 ty := by
  have hfil : s0 ∈ subjects.filter (fun s => s.class_id == c.id) :=
    List.mem_filter.mpr ⟨hs0, by simp [hcls]⟩
  have hndf : ((subjects.filter (fun s => s.class_id == c.id)).map (·.id)).Nodup :=
    List.Nodup.sublist (List.Sublist.map _ (List.filter_sublist _)) hnd
  have hp : ∀ it : Item,
      (it.class_id == c.id && it.subject_id == s0.id && it.typ == ty) = true →
        it.subject_id = s0.id := by
    intro it hit
    simp only [Bool.and_eq_true, beq_iff_eq] at hit
    exact hit.1.2
  unfold itemCnt expandClass
  rw [List.countP_append]
  have hL := countP_flatMap_by_subject (mkLab c)
    (fun it => it.class_id == c.id && it.subject_id == s0.id && it.typ == ty) s0
    (by
      intro s it hit
      unfold mkLab at hit
      by_cases hl : s.is_lab
      · rw [if_pos hl] at hit
        rw [List.eq_of_mem_replicate hit]
      · rw [if_neg hl] at hit
        simp at hit)
    hp _ hfil hndf
  have hT := countP_flatMap_by_subject (mkTheory c)
    (fun it => it.class_id == c.id && it.subject_id == s0.id && it.typ == ty) s0
    (by
      intro s it hit
      unfold mkTheory at hit
      by_cases hl : s.is_lab
      · rw [if_pos hl] at hit
        simp at hit
      · rw [if_neg hl] at hit
        rw [List.eq_of_mem_replicate hit])
    hp _ hfil hndf
  rw [show (subjects.filter (fun s => s.class_id == c.id)).flatMap
      (fun s => if s.is_lab then
        List.replicate (s.lectures_per_week / 2) (⟨c.id, s.id, ItemType.L⟩ : Item)
      else []) = (subjects.filter (fun s => s.class_id == c.id)).flatMap (mkLab c) from rfl]
  rw [show (subjects.filter (fun s => s.class_id == c.id)).flatMap
      (fun s => if s.is_lab then []
      else List.replicate s.lectures_per_week (⟨c.id, s.id, ItemType.T⟩ : Item)) =
      (subjects.filter (fun s => s.class_id == c.id)).flatMap (mkTheory c) from rfl]
  rw [hL, hT]
  unfold mkLab mkTheory expectedCnt
  by_cases hl : s0.is_lab
  · rw [if_pos hl, if_pos hl, if_pos hl]
    simp only [List.countP_nil, List.countP_replicate]
    cases ty <;> simp
  · rw [if_neg hl, if_neg hl, if_neg hl]
    simp only [List.countP_nil, List.countP_replicate]
    cases ty <;> simp

/-- A class contributes no items for another class's id. -/
theorem itemCnt_expandClass_zero {subjects : List Subject} {c : ClassGroup}
    {cT s : Nat} (hne : c.id ≠ cT) (ty : ItemType) :
    itemCnt (expandClass subjects c) cT s ty = 0 := by
  unfold itemCnt
  rw [List.countP_eq_zero]
  intro it hit hpit
  have := (expandClass_mem it hit).2
  simp only [Bool.and_eq_true, beq_iff_eq] at hpit
  exact hne (by rw [← this, hpit.1.1])

/-- Demand count of the full expansion at a subject of a present class. -/
theorem itemCnt_expandAll {subjects : List Subject} {s0 : Subject}
    (hsubnd : (subjects.map (·.id)).Nodup) (hs0 : s0 ∈ subjects) (ty : ItemType) :
    ∀ (classes : List ClassGroup), (classes.map (·.id)).Nodup →
      ∀ c0 ∈ classes, s0.class_id = c0.id →
      itemCnt (expandAll classes subjects) c0.id s0.id ty = expectedCnt s0 ty := by
  intro classes
  induction classes with
  | nil => intro _ c0 hc0; simp at hc0
  | cons c rest ih =>
      intro hnd c0 hc0 hcid
      have hnd' : (rest.map (·.id)).Nodup := (List.nodup_cons.mp hnd).2
      have hcidnotin : c.id ∉ rest.map (·.id) := (List.nodup_cons.mp hnd).1
      have happ : itemCnt (expandAll (c :: rest) subjects) c0.id s0.id ty =
          itemCnt (expandClass subjects c) c0.id s0.id ty +
            itemCnt (expandAll rest subjects) c0.id s0.id ty := by
        unfold expandAll itemCnt
        rw [List.flatMap_cons, List.countP_append]
      rcases List.mem_cons.mp hc0 with heq | hmem
      · subst heq
        have hrest : itemCnt (expandAll rest subjects) c0.id s0.id ty = 0 := by
          unfold itemCnt expandAll
          rw [List.countP_eq_zero]
          intro it hit hpit
          simp only [List.mem_flatMap] at hit
          obtain ⟨c', hc', hitc⟩ := hit
          have hcc := (expandClass_mem it hitc).2
          simp only [Bool.and_eq_true, beq_iff_eq] at hpit
          apply hcidnotin
          rw [show c0.id = c'.id from by rw [← hpit.1.1, hcc]]
          exact List.mem_map_of_mem (·.id) hc'
        rw [happ, hrest, itemCnt_expandClass_self hsubnd hs0 hcid ty]
        omega
      · have hne : c.id ≠ c0.id := by
          intro heq
          apply hcidnotin
          rw [heq]
          exact List.mem_map_of_mem (·.id) hmem
        rw [happ, itemCnt_expandClass_zero hne ty, ih hnd' c0 hmem hcid]
        omega

/-- Entry count contributed by one block's persistence: all of its entries
carry the block's class and its item's subject. -/
theorem persistSlots_count {slots : List TimeSlot} {vid : Nat} {b : Block} (c s : Nat) :
    ∀ (os : List Nat) (es : List Entry), persistSlots slots vid b os = some es →
      es.countP (fun e => e.class_id == c && e.subject_id == s) =
        (if blockMatches b c s then os.length else 0) := by
  intro os
  induction os with
  | nil =>
      intro es h
      simp only [persistSlots, Option.some_inj] at h
      subst h
      simp only [List.countP_nil]
      cases hm : blockMatches b c s <;> simp
  | cons o os ih =>
      intro es h
      simp only [persistSlots, bind, pure, Option.bind_eq_some, Option.some_inj] at h
      obtain ⟨ts, hts, pi, hpi, rest, hrest, hes⟩ := h
      subst hes
      rw [List.countP_cons, ih rest hrest]
      have hbm : blockMatches b c s = (b.class_id == c && pi.subject_id == s) := by
        unfold blockMatches
        rw [hpi]
      rw [hbm]
      simp only [List.length_cons]
      cases hco : (b.class_id == c && pi.subject_id == s) <;> simp

/-- The (teacher, slot) pairs of one block's persisted entries are exactly
its `blockPairs`. -/
theorem persistSlots_pairs {slots : List TimeSlot} {vid : Nat} {b : Block} :
    ∀ (os : List Nat) (es : List Entry), persistSlots slots vid b os = some es →
      es.map (fun e => (e.teacher_id, e.time_slot_id)) =
        (match b.item with
         | some pi => os.map (fun o => (pi.teacher_id, (slotMapLookup slots b.day o).getD 0))
         | none => []) := by
  intro os
  induction os with
  | nil =>
      intro es h
      simp only [persistSlots, Option.some_inj] at h
      subst h
      cases b.item <;> rfl
  | cons o os ih =>
      intro es h
      simp only [persistSlots, bind, pure, Option.bind_eq_some, Option.some_inj] at h
      obtain ⟨ts, hts, pi, hpi, rest, hrest, hes⟩ := h
      subst hes
      rw [hpi]
      have := ih rest hrest
      rw [hpi] at this
      simp only [List.map_cons, this, hts, Option.getD_some]

/-- Field provenance of one block's persisted entries. -/
theorem persistSlots_fields {slots : List TimeSlot} {vid : Nat} {b : Block} :
    ∀ (os : List Nat) (es : List Entry), persistSlots slots vid b os = some es →
      ∀ e ∈ es, ∃ pi, b.item = some pi ∧ e.class_id = b.class_id ∧
        e.subject_id = pi.subject_id ∧ e.room_id = pi.room_id := by
  intro os
  induction os with
  | nil =>
      intro es h e he
      simp only [persistSlots, Option.some_inj] at h
      subst h
      simp at he
  | cons o os ih =>
      intro es h e he
      simp only [persistSlots, bind, pure, Option.bind_eq_some, Option.some_inj] at h
      obtain ⟨ts, hts, pi, hpi, rest, hrest, hes⟩ := h
      subst hes
      rcases List.mem_cons.mp he with he' | he'
      · subst he'
        exact ⟨pi, hpi, rfl, rfl, rfl⟩
      · exact ih rest hrest e he'

/-- A block with entries but no item must have had no slot orders. -/
theorem persistBlock_none {slots : List TimeSlot} {vid : Nat} {b : Block}
    (hitem : b.item = none) {es : List Entry}
    (h : persistBlock slots vid b = some es) : es = [] := by
  unfold persistBlock at h
  cases hsl : b.slots with
  | nil =>
      rw [hsl] at h
      simp only [persistSlots, Option.some_inj] at h
      exact h.symm
  | cons o os =>
      rw [hsl] at h
      simp only [persistSlots, bind, pure, Option.bind_eq_some, Option.some_inj] at h
      obtain ⟨ts, hts, pi, hpi, _⟩ := h
      rw [hitem] at hpi
      exact Option.noConfusion hpi

/-- Total entry count per (class, subject): two per filled lab block, one
per filled theory block. -/
theorem persistBlocks_count {slots : List TimeSlot} {vid : Nat} (c s : Nat) :
    ∀ (blocks : List Block) (es : List Entry),
      persistBlocks slots vid blocks = some es →
      (∀ b ∈ blocks, (b.btyp = ItemType.L → b.slots.length = 2) ∧
        (b.btyp = ItemType.T → b.slots.length = 1)) →
      es.countP (fun e => e.class_id == c && e.subject_id == s) =
        2 * cntFilled blocks c s ItemType.L + cntFilled blocks c s ItemType.T := by
  intro blocks
  induction blocks with
  | nil =>
      intro es h _
      simp only [persistBlocks, Option.some_inj] at h
      subst h
      rfl
  | cons b bs ih =>
      intro es h hshape
      simp only [persistBlocks, bind, pure, Option.bind_eq_some, Option.some_inj] at h
      obtain ⟨eb, heb, rest, hrest, hes⟩ := h
      subst hes
      rw [List.countP_append]
      have hcntb := persistSlots_count c s b.slots eb heb
      have hrestcnt := ih rest hrest (fun b' hb' => hshape b' (by simp [hb']))
      have hcons : ∀ ty, cntFilled (b :: bs) c s ty =
          cntFilled bs c s ty + (if (blockMatches b c s && b.btyp == ty) then 1 else 0) := by
        intro ty
        unfold cntFilled
        rw [List.countP_cons]
      rw [hcntb, hrestcnt, hcons ItemType.L, hcons ItemType.T]
      have hlen := hshape b (by simp)
      cases hbt : b.btyp
      · -- theory block
        have hl1 : b.slots.length = 1 := hlen.2 hbt
        cases hm : blockMatches b c s <;>
          simp [hbt, hm, hl1] <;> omega
      · -- lab block
        have hl2 : b.slots.length = 2 := hlen.1 hbt
        cases hm : blockMatches b c s <;>
          simp [hbt, hm, hl2] <;> omega

/-- The (teacher, slot) pairs of the persisted entries are exactly the
grid's pairs. -/
theorem persistBlocks_pairs {slots : List TimeSlot} {vid : Nat} :
    ∀ (blocks : List Block) (es : List Entry),
      persistBlocks slots vid blocks = some es →
      es.map (fun e => (e.teacher_id, e.time_slot_id)) = gridPairs slots blocks := by
  intro blocks
  induction blocks with
  | nil =>
      intro es h
      simp only [persistBlocks, Option.some_inj] at h
      subst h
      rfl
  | cons b bs ih =>
      intro es h
      simp only [persistBlocks, bind, pure, Option.bind_eq_some, Option.some_inj] at h
      obtain ⟨eb, heb, rest, hrest, hes⟩ := h
      subst hes
      rw [List.map_append, ih rest hrest]
      have hpairs := persistSlots_pairs b.slots eb heb
      cases hpi : b.item with
      | none =>
          rw [persistBlock_none hpi heb]
          simp only [List.map_nil, gridPairs, List.flatMap_cons]
          rw [show blockPairs slots b = [] from by simp [blockPairs, hpi]]
      | some pi =>
          rw [hpi] at hpairs
          simp only [gridPairs, List.flatMap_cons]
          rw [show blockPairs slots b =
            b.slots.map (fun o => (pi.teacher_id, (slotMapLookup slots b.day o).getD 0)) from by
              simp [blockPairs, hpi]]
          rw [hpairs]

/-- Provenance of every persisted entry: it reads off a filled block. -/
theorem persistBlocks_fields {slots : List TimeSlot} {vid : Nat} :
    ∀ (blocks : List Block) (es : List Entry),
      persistBlocks slots vid blocks = some es →
      ∀ e ∈ es, ∃ b ∈ blocks, ∃ pi, b.item = some pi ∧ e.class_id = b.class_id ∧
        e.subject_id = pi.subject_id ∧ e.room_id = pi.room_id := by
  intro blocks
  induction blocks with
  | nil =>
      intro es h e he
      simp only [persistBlocks, Option.some_inj] at h
      subst h
      simp at he
  | cons b bs ih =>
      intro es h e he
      simp only [persistBlocks, bind, pure, Option.bind_eq_some, Option.some_inj] at h
      obtain ⟨eb, heb, rest, hrest, hes⟩ := h
      subst hes
      rcases List.mem_append.mp he with he' | he'
      · obtain ⟨pi, hpi, h1, h2, h3⟩ := persistSlots_fields b.slots eb heb e he'
        exact ⟨b, by simp, pi, hpi, h1, h2, h3⟩
      · obtain ⟨b', hb', pi, hpi, h1, h2, h3⟩ := ih rest hrest e he'
        exact ⟨b', by simp [hb'], pi, hpi, h1, h2, h3⟩

/-- Destructuring a candidate that reached the `placed` outcome: the search
succeeded from the fresh grid and the persistence loop produced the entries,
so the search soundness theorem applies. -/
theorem genOne_placed_spec (inst : Instance) (vid : Nat) (rng : Rng) (es : List Entry)
    (hinj : (inst.slots.map (·.id)).Nodup)
    (hp : (genOne inst vid rng).1 = CandOut.placed es) :
    ∃ st' : SearchSt,
      persistBlocks inst.slots vid st'.blocks = some es ∧
      PlaceOut inst.slots (classroomsOf inst.rooms) (labRoomsOf inst.rooms) inst.subjects
        ⟨(buildAllGrids inst.classes (buildItems inst.classes inst.subjects rng).2).1, [], []⟩
        (buildItems inst.classes inst.subjects rng).1 st' := by
  unfold genOne at hp
  simp only [] at hp
  set items := (buildItems inst.classes inst.subjects rng).1 with hitems
  set grid := (buildAllGrids inst.classes (buildItems inst.classes inst.subjects rng).2).1
    with hgrid
  set rng2 := (buildAllGrids inst.classes (buildItems inst.classes inst.subjects rng).2).2
    with hrng2
  set pr := placeItems inst.slots inst.teacher_subjects
    (classroomsOf inst.rooms) (labRoomsOf inst.rooms) items ⟨grid, [], []⟩ rng2
    with hpr
  split at hp
  next heq1 =>
    simp at hp
  next st heq1 =>
    split at hp
    next heq2 =>
      simp at hp
    next es' heq2 =>
      simp only at hp
      simp only [CandOut.placed.injEq] at hp
      subst hp
      refine ⟨st, heq2, ?_⟩
      have h2 : pr = (some st, pr.2) := by rw [← heq1]
      have hgp := buildAllGrids_props inst.classes
        (buildItems inst.classes inst.subjects rng).2
      exact place_spec hinj (items.length + 1) items ⟨grid, [], []⟩ rng2 st pr.2 h2
        (searchInv_init (fun b hb => (hgp b hb).1) (fun b hb => (hgp b hb).2.1))
        (fun it hit => buildItems_itemOk it hit)

/-- Nothing is counted as filled in the fresh grid. -/
theorem cntFilled_init {blocks : List Block}
    (hempty : ∀ b ∈ blocks, b.item = none) (c s : Nat) (ty : ItemType) :
    cntFilled blocks c s ty = 0 := by
  unfold cntFilled
  rw [List.countP_eq_zero]
  intro b hb hpred
  simp only [Bool.and_eq_true] at hpred
  have := hpred.1
  unfold blockMatches at this
  rw [hempty b hb] at this
  simp at this

/-- C1, amended: on a valid instance (distinct class, subject and slot ids;
lab subjects with even `lectures_per_week`; every subject's class present),
a candidate whose search succeeded **and whose persistence loop completed**
(the `placed` outcome, which the crash counterexample shows is strictly
stronger than search success) persists, for each (class, subject), exactly
`lectures_per_week` entries: `k` one-slot entries for a theory subject and
`k/2` two-slot blocks, i.e. `k` entries, for a lab subject. -/
theorem c1_coverage (inst : Instance) (vid : Nat) (rng : Rng) (es : List Entry)
    (hcls : (inst.classes.map (·.id)).Nodup)
    (hsub : (inst.subjects.map (·.id)).Nodup)
    (hslots : (inst.slots.map (·.id)).Nodup)
    (heven : ∀ s ∈ inst.subjects, s.is_lab = true → s.lectures_per_week % 2 = 0)
    (hclsmem : ∀ s ∈ inst.subjects, s.class_id ∈ inst.classes.map (·.id))
    (hp : (genOne inst vid rng).1 = CandOut.placed es) :
    ∀ s ∈ inst.subjects,
      (es.filter (fun e => e.class_id == s.class_id && e.subject_id == s.id)).length =
        s.lectures_per_week := by
  obtain ⟨st', hper, hpo⟩ := genOne_placed_spec inst vid rng es hslots hp
  intro s hs
  have hgp := buildAllGrids_props inst.classes (buildItems inst.classes inst.subjects rng).2
  have hshape : ∀ b ∈ st'.blocks, (b.btyp = ItemType.L → b.slots.length = 2) ∧
      (b.btyp = ItemType.T → b.slots.length = 1) := by
    intro b hb
    have hmem : Block.shape b ∈ st'.blocks.map Block.shape := List.mem_map_of_mem _ hb
    rw [hpo.shapes] at hmem
    obtain ⟨g, hg, hsg⟩ := List.mem_map.mp hmem
    have hgprops := hgp g hg
    unfold Block.shape at hsg
    simp only [Prod.mk.injEq] at hsg
    obtain ⟨_, _, hsl, hbt⟩ := hsg
    rw [← hsl, ← hbt]
    exact ⟨hgprops.2.2.1, hgprops.2.2.2⟩
  have hcount := persistBlocks_count s.class_id s.id st'.blocks es hper hshape
  rw [← List.countP_eq_length_filter, hcount]
  have hzero := fun ty => cntFilled_init
    (fun b hb => (hgp b hb).1) s.class_id s.id ty
  have hcnts := fun ty => hpo.counts s.class_id s.id ty
  obtain ⟨c0, hc0, hc0id⟩ := List.mem_map.mp (hclsmem s hs)
  have hexp := fun ty => itemCnt_expandAll hsub hs ty inst.classes hcls c0 hc0 hc0id.symm
  have hitemcnt : ∀ ty, itemCnt (buildItems inst.classes inst.subjects rng).1
      s.class_id s.id ty = expectedCnt s ty := by
    intro ty
    rw [itemCnt_buildItems_eq]
    rw [show s.class_id = c0.id from hc0id.symm]
    exact hexp ty
  rw [hcnts ItemType.L, hcnts ItemType.T, hzero ItemType.L, hzero ItemType.T,
    hitemcnt ItemType.L, hitemcnt ItemType.T]
  unfold expectedCnt
  cases hl : s.is_lab
  · simp
  · have hev := heven s hs hl
    simp
    omega

/-- C2, amended: the search's block rejection consults only the slot map and
`teacher_busy` (availability is loaded by `_load_availability` but never
read), so what holds of every persisted candidate is: no two entries share
(teacher_id, time_slot_id). -/
theorem c2_no_teacher_clash (inst : Instance) (vid : Nat) (rng : Rng) (es : List Entry)
    (hslots : (inst.slots.map (·.id)).Nodup)
    (hp : (genOne inst vid rng).1 = CandOut.placed es) :
    (es.map (fun e => (e.teacher_id, e.time_slot_id))).Nodup := by
  obtain ⟨st', hper, hpo⟩ := genOne_placed_spec inst vid rng es hslots hp
  rw [persistBlocks_pairs st'.blocks es hper]
  exact hpo.inv.nodupPairs

/-- C4, amended: every persisted entry's room has the `room_type` matching
its subject's kind — `classroom` for theory, `lab` for lab — because room
selection restricts the pool by type; no capacity filter exists, so
`capacity ≥ student_strength` is not guaranteed. -/
theorem c4_room_type (inst : Instance) (vid : Nat) (rng : Rng) (es : List Entry)
    (hsub : (inst.subjects.map (·.id)).Nodup)
    (hrooms : (inst.rooms.map (·.id)).Nodup)
    (hslots : (inst.slots.map (·.id)).Nodup)
    (hp : (genOne inst vid rng).1 = CandOut.placed es) :
    ∀ e ∈ es, ∀ s ∈ inst.subjects, s.id = e.subject_id →
      ∀ r ∈ inst.rooms, r.id = e.room_id →
      r.room_type = (if s.is_lab then RoomType.lab else RoomType.classroom) := by
  obtain ⟨st', hper, hpo⟩ := genOne_placed_spec inst vid rng es hslots hp
  intro e he s hs hsid r hr hrid
  obtain ⟨b, hb, pi, hpi, hcls, hsubj, hroom⟩ := persistBlocks_fields st'.blocks es hper e he
  have hfo := hpo.inv.filledOk b hb pi hpi
  obtain ⟨r', hr', hr'id⟩ := hfo.room_ok
  obtain ⟨s', hs', hs'id, hs'lab⟩ := hfo.subj_ok
  have hss : s = s' := by
    apply List.inj_on_of_nodup_map hsub hs hs'
    rw [hs'id, hsid, hsubj]
  subst hss
  have hr'mem : r' ∈ inst.rooms ∧
      (if b.btyp = ItemType.L then r'.room_type = RoomType.lab
        else r'.room_type = RoomType.classroom) := by
    cases hbt : b.btyp
    · rw [hbt] at hr'
      unfold poolFor classroomsOf at hr'
      have := List.mem_filter.mp hr'
      refine ⟨this.1, ?_⟩
      simp only [show (ItemType.T = ItemType.L) = False from by simp, if_false]
      simpa using this.2
    · rw [hbt] at hr'
      unfold poolFor labRoomsOf at hr'
      have := List.mem_filter.mp hr'
      refine ⟨this.1, ?_⟩
      simp only [if_pos rfl]
      simpa using this.2
  have hrr : r = r' := by
    apply List.inj_on_of_nodup_map hrooms hr hr'mem.1
    rw [hr'id, hrid, hroom]
  subst hrr
  have hiff := hs'lab
  cases hbt : b.btyp
  · have hnotlab : s.is_lab = false := by
      cases hlab : s.is_lab
      · rfl
      · exfalso
        have := hiff.mpr hlab
        rw [hbt] at this
        exact ItemType.noConfusion this
    rw [hnotlab]
    have := hr'mem.2
    rw [hbt] at this
    simpa using this
  · have hlab : s.is_lab = true := hiff.mp hbt
    rw [hlab]
    have := hr'mem.2
    rw [hbt] at this
    simpa using this

/-- C1 counterexample: `instSmall` is valid in the claim's sense (its only
subject is theory, so the even-lab condition holds vacuously, and it has a
teacher mapping), the search succeeds, the subject demands one lecture —
yet the run persists no entries at all (the persistence loop crashes on the
22 empty blocks and the generator propagates the error), so the per-subject
entry count is 0, not `lectures_per_week`. -/
theorem c1_counterexample :
    (∀ s ∈ instSmall.subjects, s.is_lab = true → s.lectures_per_week % 2 = 0) ∧
    instSmall.teacher_subjects = [⟨1, 1⟩] ∧
    instSmall.subjects = [⟨1, "Maths", 1, 1, false, false⟩] ∧
    (placeItems instSmall.slots instSmall.teacher_subjects
      (classroomsOf instSmall.rooms) (labRoomsOf instSmall.rooms)
      (buildItems instSmall.classes instSmall.subjects (rngConst 0)).1
      ⟨(buildAllGrids instSmall.classes
          (buildItems instSmall.classes instSmall.subjects (rngConst 0)).2).1, [], []⟩
      (buildAllGrids instSmall.classes
        (buildItems instSmall.classes instSmall.subjects (rngConst 0)).2).2).1.isSome = true ∧
    generateTimetable instSmall 1 80 emptyDB (rngConst 0) = Except.error ⟨[], [], []⟩ := by
  exact ⟨by decide, rfl, rfl, by rfl, by rfl⟩

/-- C1 witness: on the exact-fill instance the persisted candidate indeed
carries 8 entries for the 8-lecture lab subject (class 1, subject 4). -/
theorem c1_witness :
    (es1.filter (fun e => e.class_id == 1 && e.subject_id == 4)).length = 8 :=
  c1_coverage instRun 1 (rngConst 0) es1 (by decide) (by decide) (by decide)
    (by decide) (by decide) rfl ⟨4, "PhysicsLab", 1, 8, false, true⟩ (by decide)

/-- C2 counterexample: the instance marks teacher 1 unavailable at slot 1,
yet the persisted candidate contains an entry assigning teacher 1 to slot 1
— the search never consults availability. -/
theorem c2_counterexample :
    instRun.availability = [⟨1, 1, false⟩] ∧
    (⟨1, 1, 4, 1, 2, 1, false⟩ : Entry) ∈ es1 := by
  exact ⟨rfl, by decide⟩

/-- C2 witness: the persisted candidate of the exact-fill run has pairwise
distinct (teacher, slot) pairs. -/
theorem c2_witness : (es1.map (fun e => (e.teacher_id, e.time_slot_id))).Nodup :=
  c2_no_teacher_clash instRun 1 (rngConst 0) es1 (by decide) rfl

/-- C4 counterexample: a persisted entry sits in room 1 of capacity 10 while
its class has student_strength 30 — no capacity filter is applied. -/
theorem c4_counterexample :
    (⟨1, 1, 3, 1, 1, 10, false⟩ : Entry) ∈ es1 ∧
    instRun.rooms = [⟨1, "R101", 10, RoomType.classroom⟩, ⟨2, "L201", 40, RoomType.lab⟩] ∧
    instRun.classes = [⟨1, "FY-A", 30⟩] := by
  exact ⟨by decide, rfl, rfl⟩

/-- C4 witness: the persisted lab entry (subject 4, room 2) indeed sits in a
room whose type is `lab`. -/
theorem c4_witness :
    (⟨2, "L201", 40, RoomType.lab⟩ : Room).room_type =
      (if (⟨4, "PhysicsLab", 1, 8, false, true⟩ : Subject).is_lab then RoomType.lab
        else RoomType.classroom) :=
  c4_room_type instRun 1 (rngConst 0) es1 (by decide) (by decide) (by decide) rfl
    ⟨1, 1, 4, 1, 2, 1, false⟩ (by decide)
    ⟨4, "PhysicsLab", 1, 8, false, true⟩ (by decide) rfl
    ⟨2, "L201", 40, RoomType.lab⟩ (by decide) rfl

/-! ### C10: persistence dereferences empty blocks -/

/-- C10: on `instSmall` the demand is a single theory item while the grid
holds 23 blocks, the search succeeds (all items placed), and the iteration
ends in the crash outcome: the persistence loop reads `block["item"]` of an
unfilled block (`None["subject_id"]`, modelled as the `none` propagated to
`CandOut.crash`), so the whole generation raises and nothing is persisted. -/
theorem c10_none_dereference :
    (buildItems instSmall.classes instSmall.subjects (rngConst 0)).1.length = 1 ∧
      (buildAllGrids instSmall.classes
        (pyShuffle (expandAll instSmall.classes instSmall.subjects) (rngConst 0)).2).1.length = 23 ∧
      (placeItems instSmall.slots instSmall.teacher_subjects
        (classroomsOf instSmall.rooms) (labRoomsOf instSmall.rooms)
        (buildItems instSmall.classes instSmall.subjects (rngConst 0)).1
        ⟨(buildAllGrids instSmall.classes
            (buildItems instSmall.classes instSmall.subjects (rngConst 0)).2).1, [], []⟩
        (buildAllGrids instSmall.classes
          (buildItems instSmall.classes instSmall.subjects (rngConst 0)).2).2).1.isSome = true ∧
      (genOne instSmall 1 (rngConst 0)).1 = CandOut.crash ∧
      generateTimetable instSmall 1 80 emptyDB (rngConst 0) = Except.error ⟨[], [], []⟩ := by
  refine ⟨rfl, rfl, rfl, rfl, rfl⟩

end TimetableSpec
